import Mathlib

/-!
image-tool.cpp : 24-bit BMP mirror / scale / rotate

A shallow embedding of `src/image-tool.cpp`.

* `unsigned char` is `Fin 256`; a `vector<unsigned char>` is a `List Byte`.
* `int` expressions are computed over `Int` (signed overflow is undefined behaviour in C++
  and is not given a meaning here); `/` on `int` is `Int.tdiv`, `& ~3` is `andNot3`. The
  values are those of the code where they fit an `int`: `fitsInt32`, `loadFits` and
  `rotFits` say that of the expressions a function forms.
* `uint16_t` / `uint32_t` header fields are `Nat`, reduced `% 2 ^ 16` / `% 2 ^ 32` wherever
  the code stores into them or writes them out; `int32_t` fields are `Int`, written and
  read back as their two's-complement bit pattern. The packed structs are laid out
  little-endian, field after field.
* `double` values are rationals, and `cos(rad)` and `sin(rad)` are inputs of
  `rotateImage`. `rotateImageFl` rounds the result of every `double` operation with a
  rounding `fl`; `roundDouble` is binary64 round-to-nearest. `rotateImage` is
  `rotateImageFl id`, the operations computed exactly: the result of the code at angle 0,
  and its dimensions at 90 degrees.
* A `for (int i = 0; i < n; ++i)` loop is `forLoop n.toNat`.
* A function that can throw, or that can touch memory outside a vector, returns
  `Except Err`. Allocation always succeeds: `std::bad_alloc` has no counterpart.
* An input file is the list of its bytes (`none` when it cannot be opened); an `ifstream`
  is `IfStream`, whose reads after a short read do nothing, as with `failbit` set.
-/

namespace ImageTool

/-- One `unsigned char`. -/
abbrev Byte := Fin 256

/-- The ways a call can end other than by returning. The first five are the
`runtime_error`s thrown by the program itself, `lengthError` is the exception raised by
`vector::resize` / `vector::assign` when a negative `int` is converted to `size_t`, and the
last two stand for undefined behaviour (an access outside a vector, an integer division
by zero). -/
inductive Err where
  | cannotOpenInput
  | unsupportedFormat
  | cannotOpenOutput
  | invalidMirrorDirection
  | invalidMode
  | lengthError
  | outOfBounds
  | divisionByZero
deriving DecidableEq, Repr

deriving instance DecidableEq for Except

/-- The loop `for (int i = 0; i < n; ++i) body(i)`, threading the state and stopping at
the first error. -/
def forLoop {σ : Type} (n : Nat) (body : Nat → σ → Except Err σ) (s : σ) : Except Err σ :=
  match n with
  | 0 => .ok s
  | k + 1 =>
    match forLoop k body s with
    | .ok s' => body k s'
    | .error e => .error e

/-- The operation `v & ~3` on a two's-complement `int`: it clears the two low bits, which
is `v - v % 4` with the Euclidean remainder (`andNot3_eq_land` shows that this is
`Int.land v (~~~3)`). -/
def andNot3 (v : Int) : Int :=
  v - v % 4

/-- The padded row size `(width * 3 + 3) & ~3`. -/
def rowSizeOf (width : Int) : Int :=
  andNot3 (width * 3 + 3)

/-- The call `swap(data[i], data[j])` with `int` indices. -/
def swapAt (data : List Byte) (i j : Int) : Except Err (List Byte) :=
  if (0 ≤ i ∧ i.toNat < data.length) ∧ (0 ≤ j ∧ j.toNat < data.length) then
    .ok ((data.set i.toNat (data.getD j.toNat 0)).set j.toNat (data.getD i.toNat 0))
  else
    .error .outOfBounds

/-- The function `horizontalMirror` (lines 66-74): `row` is the offset `y * rowSize`. -/
def horizontalMirror (data : List Byte) (width height rowSize : Int) :
    Except Err (List Byte) :=
  forLoop height.toNat (fun y data =>
    let row : Int := (y : Int) * rowSize
    forLoop (Int.tdiv width 2).toNat (fun x data =>
      forLoop 3 (fun c data =>
        swapAt data (row + ((x : Int) * 3 + (c : Int)))
          (row + ((width - 1 - (x : Int)) * 3 + (c : Int)))) data) data) data

/-- The function `verticalMirror` (lines 76-81); `width` is not used by the code. -/
def verticalMirror (data : List Byte) (_width height rowSize : Int) :
    Except Err (List Byte) :=
  forLoop (Int.tdiv height 2).toNat (fun y data =>
    forLoop rowSize.toNat (fun x data =>
      swapAt data ((y : Int) * rowSize + (x : Int))
        ((height - 1 - (y : Int)) * rowSize + (x : Int))) data) data

/-- The call `memcpy(dstPixel, srcPixel, 3)` with `srcPixel = &src[so]` and
`dstPixel = &dst[dp]`, the offsets being `int` expressions. -/
def copyPixel (src dst : List Byte) (so dp : Int) : Except Err (List Byte) :=
  if (0 ≤ so ∧ so.toNat + 3 ≤ src.length) ∧ (0 ≤ dp ∧ dp.toNat + 3 ≤ dst.length) then
    .ok (((dst.set dp.toNat (src.getD so.toNat 0)).set (dp.toNat + 1)
      (src.getD (so.toNat + 1) 0)).set (dp.toNat + 2) (src.getD (so.toNat + 2) 0))
  else
    .error .outOfBounds

/-- The `int` division `a / b`: truncation toward zero, undefined for `b = 0`. -/
def cdiv (a b : Int) : Except Err Int :=
  if b = 0 then .error .divisionByZero else .ok (Int.tdiv a b)

/-- The call `dst.assign(n, v)` where `n` is an `int` expression converted to `size_t`:
a negative `n` becomes a size above `max_size()` and the call throws. -/
def assign (n : Int) (v : Byte) : Except Err (List Byte) :=
  if n < 0 then .error .lengthError else .ok (List.replicate n.toNat v)

/-- The body of the two loops of `scaleImage` (lines 92-96) for destination pixel
`(x, y)`. -/
def scalePixel (src : List Byte) (width height rowSize newWidth newHeight newRowSize : Int)
    (y x : Nat) (dst : List Byte) : Except Err (List Byte) :=
  match cdiv ((x : Int) * width) newWidth with
  | .error e => .error e
  | .ok srcX =>
    match cdiv ((y : Int) * height) newHeight with
    | .error e => .error e
    | .ok srcY =>
      copyPixel src dst (srcY * rowSize + srcX * 3) ((y : Int) * newRowSize + (x : Int) * 3)

/-- The function `scaleImage` (lines 83-99). The result is `(dst, newWidth, newHeight,
newRowSize)`, the four reference parameters the code writes. The products are formed
over `Int`: they are the values of the code where they fit an `int` (`fitsInt32`). -/
def scaleImage (src : List Byte) (width height rowSize scalePercent : Int) :
    Except Err (List Byte × Int × Int × Int) :=
  let newWidth := Int.tdiv (width * scalePercent) 100
  let newHeight := Int.tdiv (height * scalePercent) 100
  let newRowSize := rowSizeOf newWidth
  match assign (newRowSize * newHeight) 0 with
  | .error e => .error e
  | .ok dst0 =>
    match forLoop newHeight.toNat (fun y dst =>
      forLoop newWidth.toNat (fun x dst =>
        scalePixel src width height rowSize newWidth newHeight newRowSize y x dst)
        dst) dst0 with
    | .error e => .error e
    | .ok dst => .ok (dst, newWidth, newHeight, newRowSize)

/-- The value a pixel loop leaves at byte `r` of destination row `y`: the source byte
chosen by `sel`, or the initial destination byte where `sel` chooses none. -/
def pixelByte (src dst0 : List Byte) (sel : Nat → Nat → Option Nat) (nrs y r : Nat) :
    Option Byte :=
  match sel y (r / 3) with
  | some so => src[so + r % 3]?
  | none => dst0[y * nrs + r]?

/-- The low byte of a number. -/
def byteOf (n : Nat) : Byte :=
  ⟨n % 256, Nat.mod_lt n (by decide)⟩

/-- The two bytes of a `uint16_t` in memory (little-endian). -/
def le16 (n : Nat) : List Byte :=
  [byteOf n, byteOf (n / 256)]

/-- The four bytes of a `uint32_t` in memory (little-endian). -/
def le32 (n : Nat) : List Byte :=
  [byteOf n, byteOf (n / 256), byteOf (n / 65536), byteOf (n / 16777216)]

/-- The `uint16_t` stored at offset `i` of a byte sequence. -/
def rd16 (b : List Byte) (i : Nat) : Nat :=
  (b.getD i 0).val + 256 * (b.getD (i + 1) 0).val

/-- The `uint32_t` stored at offset `i` of a byte sequence. -/
def rd32 (b : List Byte) (i : Nat) : Nat :=
  (b.getD i 0).val + 256 * (b.getD (i + 1) 0).val + 65536 * (b.getD (i + 2) 0).val
    + 16777216 * (b.getD (i + 3) 0).val

/-- The bit pattern of an `int32_t` (two's complement). -/
def toU32 (i : Int) : Nat :=
  (i % 4294967296).toNat

/-- The `int32_t` with a given bit pattern. -/
def ofU32 (n : Nat) : Int :=
  if n % 4294967296 < 2147483648 then ((n % 4294967296 : Nat) : Int)
  else ((n % 4294967296 : Nat) : Int) - 4294967296

/-- The packed `struct BMPFileHeader` (lines 14-20). -/
structure BMPFileHeader where
  bfType0 : Byte
  bfType1 : Byte
  bfSize : Nat
  bfReserved1 : Nat
  bfReserved2 : Nat
  bfOffBits : Nat

deriving DecidableEq, Repr

/-- The packed `struct BMPInfoHeader` (lines 22-34). -/
structure BMPInfoHeader where
  biSize : Nat
  biWidth : Int
  biHeight : Int
  biPlanes : Nat
  biBitCount : Nat
  biCompression : Nat
  biSizeImage : Nat
  biXPelsPerMeter : Int
  biYPelsPerMeter : Int
  biClrUsed : Nat
  biClrImportant : Nat

deriving DecidableEq, Repr

/-- Every field of the file header holds a value of its C type. -/
def BMPFileHeader.wf (fh : BMPFileHeader) : Prop :=
  fh.bfSize < 4294967296 ∧ fh.bfReserved1 < 65536 ∧ fh.bfReserved2 < 65536 ∧
    fh.bfOffBits < 4294967296

/-- Every field of the info header holds a value of its C type. -/
def BMPInfoHeader.wf (ih : BMPInfoHeader) : Prop :=
  ih.biSize < 4294967296 ∧
    (-2147483648 ≤ ih.biWidth ∧ ih.biWidth < 2147483648) ∧
    (-2147483648 ≤ ih.biHeight ∧ ih.biHeight < 2147483648) ∧
    ih.biPlanes < 65536 ∧ ih.biBitCount < 65536 ∧ ih.biCompression < 4294967296 ∧
    ih.biSizeImage < 4294967296 ∧
    (-2147483648 ≤ ih.biXPelsPerMeter ∧ ih.biXPelsPerMeter < 2147483648) ∧
    (-2147483648 ≤ ih.biYPelsPerMeter ∧ ih.biYPelsPerMeter < 2147483648) ∧
    ih.biClrUsed < 4294967296 ∧ ih.biClrImportant < 4294967296

instance (fh : BMPFileHeader) : Decidable fh.wf := by
  unfold BMPFileHeader.wf; infer_instance

instance (ih : BMPInfoHeader) : Decidable ih.wf := by
  unfold BMPInfoHeader.wf; infer_instance

/-- The 14 bytes of a file header in memory, as `(char*)&fh` sees them. -/
def BMPFileHeader.bytes (fh : BMPFileHeader) : List Byte :=
  [fh.bfType0, fh.bfType1] ++ le32 fh.bfSize ++ le16 fh.bfReserved1 ++ le16 fh.bfReserved2
    ++ le32 fh.bfOffBits

/-- The 40 bytes of an info header in memory, as `(char*)&ih` sees them. -/
def BMPInfoHeader.bytes (ih : BMPInfoHeader) : List Byte :=
  le32 ih.biSize ++ le32 (toU32 ih.biWidth) ++ le32 (toU32 ih.biHeight) ++ le16 ih.biPlanes
    ++ le16 ih.biBitCount ++ le32 ih.biCompression ++ le32 ih.biSizeImage
    ++ le32 (toU32 ih.biXPelsPerMeter) ++ le32 (toU32 ih.biYPelsPerMeter)
    ++ le32 ih.biClrUsed ++ le32 ih.biClrImportant

/-- The file header whose memory is the given 14 bytes. -/
def parseFileHeader (b : List Byte) : BMPFileHeader :=
  { bfType0 := b.getD 0 0, bfType1 := b.getD 1 0, bfSize := rd32 b 2,
    bfReserved1 := rd16 b 6, bfReserved2 := rd16 b 8, bfOffBits := rd32 b 10 }

/-- The info header whose memory is the given 40 bytes. -/
def parseInfoHeader (b : List Byte) : BMPInfoHeader :=
  { biSize := rd32 b 0, biWidth := ofU32 (rd32 b 4), biHeight := ofU32 (rd32 b 8),
    biPlanes := rd16 b 12, biBitCount := rd16 b 14, biCompression := rd32 b 16,
    biSizeImage := rd32 b 20, biXPelsPerMeter := ofU32 (rd32 b 24),
    biYPelsPerMeter := ofU32 (rd32 b 28), biClrUsed := rd32 b 32,
    biClrImportant := rd32 b 36 }

/-- An `ifstream` opened on a file: the file's bytes, the read position, and whether
`failbit` is set (every later operation is then a no-op). -/
structure IfStream where
  content : List Byte
  pos : Nat
  failed : Bool

/-- The call `in.read(p, n)`, where `buf` is the `n` bytes at `p` before the call: the
bytes available are stored at the front of the buffer, and a short read sets `failbit`. -/
def IfStream.read (s : IfStream) (buf : List Byte) : IfStream × List Byte :=
  if s.failed then (s, buf)
  else
    let got := (s.content.drop s.pos).take buf.length
    ({ s with pos := s.pos + got.length, failed := decide (got.length < buf.length) },
      got ++ buf.drop got.length)

/-- The call `in.seekg(off)`. -/
def IfStream.seekg (s : IfStream) (off : Nat) : IfStream :=
  if s.failed then s else { s with pos := off }

/-- The call `data.resize(n)` where `n` is an `int` expression converted to `size_t`: a
negative `n` becomes a size above `max_size()` and the call throws; new bytes are zero. -/
def resize (data : List Byte) (n : Int) : Except Err (List Byte) :=
  if n < 0 then .error .lengthError
  else .ok (data.take n.toNat ++ List.replicate (n.toNat - data.length) 0)

/-- Lines 46-51 of `loadBMP`: size the buffer from the header just read, seek to the
declared pixel-data offset and read the buffer. `width * 3 + 3`, `abs(ih.biHeight)` and
`rowSize * height` are formed over `Int`: they are the values of the code where they fit
an `int` (`loadFits`). -/
def readPixels (s : IfStream) (fh : BMPFileHeader) (ih : BMPInfoHeader) (data : List Byte) :
    Except Err (BMPFileHeader × BMPInfoHeader × List Byte × Int) :=
  let width := ih.biWidth
  let height : Int := (Int.natAbs ih.biHeight : Int)
  let rowSize := rowSizeOf width
  match resize data (rowSize * height) with
  | .error e => .error e
  | .ok data => .ok (fh, ih, (IfStream.read (IfStream.seekg s fh.bfOffBits) data).2, rowSize)

/-- The function `loadBMP` (lines 37-52). `file` is the content of the file named
`filename`, or `none` when it cannot be opened; `fh`, `ih` and `data` are the values of
the reference parameters before the call; the result is `(fh, ih, data, rowSize)` after
it. -/
def loadBMP (file : Option (List Byte)) (fh : BMPFileHeader) (ih : BMPInfoHeader)
    (data : List Byte) : Except Err (BMPFileHeader × BMPInfoHeader × List Byte × Int) :=
  match file with
  | none => .error .cannotOpenInput
  | some content =>
    let r1 := IfStream.read ⟨content, 0, false⟩ fh.bytes
    let fh := parseFileHeader r1.2
    let r2 := IfStream.read r1.1 ih.bytes
    let ih := parseInfoHeader r2.2
    if fh.bfType0 ≠ 66 ∨ fh.bfType1 ≠ 77 ∨ ih.biBitCount ≠ 24 ∨ ih.biCompression ≠ 0 then
      .error .unsupportedFormat
    else
      readPixels r2.1 fh ih data

/-- The function `saveBMP` (lines 54-64). `canOpen` says whether the output file can be
opened; the result is the content of the file written. -/
def saveBMP (canOpen : Bool) (fh : BMPFileHeader) (ih : BMPInfoHeader) (data : List Byte)
    (_rowSize : Int) : Except Err (List Byte) :=
  if canOpen = false then .error .cannotOpenOutput
  else
    let ih := { ih with biSizeImage := data.length % 4294967296 }
    let fh := { fh with bfSize := (fh.bfOffBits + ih.biSizeImage) % 4294967296 }
    .ok (fh.bytes ++ ih.bytes ++ data)

/-- The file header held by the first 14 bytes of a stream. -/
def fileHeaderOf (content : List Byte) : BMPFileHeader :=
  parseFileHeader (content.take 14)

/-- The info header held by bytes 14..53 of a stream. -/
def infoHeaderOf (content : List Byte) : BMPInfoHeader :=
  parseInfoHeader ((content.drop 14).take 40)

/-- The test of line 43 passes: magic `'B'`, `'M'`, 24 bits per pixel, no compression. -/
def validHeaders (fh : BMPFileHeader) (ih : BMPInfoHeader) : Prop :=
  fh.bfType0 = 66 ∧ fh.bfType1 = 77 ∧ ih.biBitCount = 24 ∧ ih.biCompression = 0

instance (fh : BMPFileHeader) (ih : BMPInfoHeader) : Decidable (validHeaders fh ih) := by
  unfold validHeaders; infer_instance

/-- A complete 1x1 bitmap file: 14 + 40 header bytes and one padded row. -/
def sampleStream : List Byte :=
  [66, 77, 58, 0, 0, 0, 0, 0, 0, 0, 54, 0, 0, 0,
   40, 0, 0, 0, 1, 0, 0, 0, 1, 0, 0, 0, 1, 0, 24, 0, 0, 0, 0, 0, 4, 0, 0, 0,
   19, 11, 0, 0, 19, 11, 0, 0, 0, 0, 0, 0, 0, 0, 0, 0,
   1, 2, 3, 0]

/-- The file header of `sampleStream`. -/
def sampleFileHeader : BMPFileHeader :=
  { bfType0 := 66, bfType1 := 77, bfSize := 58, bfReserved1 := 0, bfReserved2 := 0,
    bfOffBits := 54 }

/-- The info header of `sampleStream`. -/
def sampleInfoHeader : BMPInfoHeader :=
  { biSize := 40, biWidth := 1, biHeight := 1, biPlanes := 1, biBitCount := 24,
    biCompression := 0, biSizeImage := 4, biXPelsPerMeter := 2835, biYPelsPerMeter := 2835,
    biClrUsed := 0, biClrImportant := 0 }

/-- The stream `sampleStream` cut after the second byte of its pixel row. -/
def truncatedStream : List Byte :=
  sampleStream.take 56

/-- A well-formed file header declaring the pixel data at the largest 32-bit offset. -/
def farOffsetHeader : BMPFileHeader :=
  { bfType0 := 66, bfType1 := 77, bfSize := 0, bfReserved1 := 0, bfReserved2 := 0,
    bfOffBits := 4294967295 }

/-- A well-formed file header declaring the pixel data at offset 138, as in a file whose
info header is the 124-byte version-5 header. -/
def v5FileHeader : BMPFileHeader :=
  { bfType0 := 66, bfType1 := 77, bfSize := 142, bfReserved1 := 0, bfReserved2 := 0,
    bfOffBits := 138 }

/-- The first 40 bytes of a version-5 info header of a 1x1, 24-bit, uncompressed image. -/
def v5InfoHeader : BMPInfoHeader :=
  { biSize := 124, biWidth := 1, biHeight := 1, biPlanes := 1, biBitCount := 24,
    biCompression := 0, biSizeImage := 4, biXPelsPerMeter := 2835, biYPelsPerMeter := 2835,
    biClrUsed := 0, biClrImportant := 0 }

/-- The conversion of a `double` to `int`: truncation toward zero. -/
def truncToInt (q : ℚ) : Int :=
  if 0 ≤ q then Int.floor q else Int.ceil q

/-- The library function `round`: the nearest integer, halves away from zero. -/
def cround (q : ℚ) : ℚ :=
  if 0 ≤ q then ((Int.floor (q + 1 / 2) : Int) : ℚ) else ((Int.ceil (q - 1 / 2) : Int) : ℚ)

/-- Line 106: `newWidth = abs(width * cosA) + abs(height * sinA)`, stored in an `int`,
with the products and the sum computed exactly (`rotNewWidthFl id`). -/
def rotNewWidth (width height : Int) (cosA sinA : ℚ) : Int :=
  truncToInt (abs ((width : ℚ) * cosA) + abs ((height : ℚ) * sinA))

/-- Line 107: `newHeight = abs(width * sinA) + abs(height * cosA)`, stored in an `int`,
with the products and the sum computed exactly (`rotNewHeightFl id`). -/
def rotNewHeight (width height : Int) (cosA sinA : ℚ) : Int :=
  truncToInt (abs ((width : ℚ) * sinA) + abs ((height : ℚ) * cosA))

/-- Lines 111-122: the source coordinate `(ix, iy)` computed for destination pixel
`(x, y)`, with `srcX` and `srcY` computed exactly (`rotSourceFl id`). -/
def rotSource (width height newWidth newHeight : Int) (cosA sinA : ℚ) (y x : Nat) :
    Int × Int :=
  let cx : ℚ := (width : ℚ) / 2
  let cy : ℚ := (height : ℚ) / 2
  let ncx : ℚ := (newWidth : ℚ) / 2
  let ncy : ℚ := (newHeight : ℚ) / 2
  let dx : ℚ := (x : ℚ) - ncx
  let dy : ℚ := (y : ℚ) - ncy
  let srcX : ℚ := cosA * dx + sinA * dy + cx
  let srcY : ℚ := -sinA * dx + cosA * dy + cy
  (truncToInt (cround srcX), truncToInt (cround srcY))

/-- The body of the two loops of `rotateImage` (lines 116-127) for destination pixel
`(x, y)`. -/
def rotatePixel (src : List Byte) (width height rowSize : Int) (cosA sinA : ℚ)
    (newWidth newHeight newRowSize : Int) (y x : Nat) (dst : List Byte) :
    Except Err (List Byte) :=
  let ix := (rotSource width height newWidth newHeight cosA sinA y x).1
  let iy := (rotSource width height newWidth newHeight cosA sinA y x).2
  if ix ≥ 0 ∧ ix < width ∧ iy ≥ 0 ∧ iy < height then
    copyPixel src dst (iy * rowSize + ix * 3) ((y : Int) * newRowSize + (x : Int) * 3)
  else
    .ok dst

/-- The function `rotateImage` (lines 101-130). `cosA` and `sinA` are the values that
`cos(rad)` and `sin(rad)` return for the angle, and `double` arithmetic is computed
exactly, over `ℚ`: this is `rotateImageFl id`. It is the result of the code where no
`double` operation rounds (angle 0) and its dimensions where rounding cannot change the
truncated sums (90 degrees); `rotateImageFl` is the function with the rounding. The
result is `(dst, newWidth, newHeight, newRowSize)`. -/
def rotateImage (src : List Byte) (width height rowSize : Int) (cosA sinA : ℚ) :
    Except Err (List Byte × Int × Int × Int) :=
  let newWidth := rotNewWidth width height cosA sinA
  let newHeight := rotNewHeight width height cosA sinA
  let newRowSize := rowSizeOf newWidth
  match assign (newRowSize * newHeight) 255 with
  | .error e => .error e
  | .ok dst0 =>
    match forLoop newHeight.toNat (fun y dst =>
      forLoop newWidth.toNat (fun x dst =>
        rotatePixel src width height rowSize cosA sinA newWidth newHeight newRowSize y x dst)
        dst) dst0 with
    | .error e => .error e
    | .ok dst => .ok (dst, newWidth, newHeight, newRowSize)

/-- The source offset `rotateImage` copies destination pixel `(x, y)` from, if any. -/
def rotSel (width height rowSize newWidth newHeight : Int) (cosA sinA : ℚ) (y x : Nat) :
    Option Nat :=
  let ix := (rotSource width height newWidth newHeight cosA sinA y x).1
  let iy := (rotSource width height newWidth newHeight cosA sinA y x).2
  if ix ≥ 0 ∧ ix < width ∧ iy ≥ 0 ∧ iy < height then some (iy * rowSize + ix * 3).toNat
  else none

/-- A 4x2 image with distinct pixels; its rows are `rowSizeOf 4 = 12` bytes, no padding. -/
def sample4x2 : List Byte :=
  [10, 11, 12, 20, 21, 22, 30, 31, 32, 40, 41, 42,
   50, 51, 52, 60, 61, 62, 70, 71, 72, 80, 81, 82]

/-- A 54-byte stream whose headers pass the check of line 43 and declare a 0x0 image. -/
def zeroSizeStream : List Byte :=
  [66, 77, 54, 0, 0, 0, 0, 0, 0, 0, 54, 0, 0, 0,
   40, 0, 0, 0, 0, 0, 0, 0, 0, 0, 0, 0, 1, 0, 24, 0, 0, 0, 0, 0, 0, 0, 0, 0,
   19, 11, 0, 0, 19, 11, 0, 0, 0, 0, 0, 0, 0, 0, 0, 0]

/-- A value of type `int`: it lies in `[-2^31, 2^31 - 1]`. -/
def fitsInt32 (v : Int) : Prop :=
  -2147483648 ≤ v ∧ v ≤ 2147483647

instance (v : Int) : Decidable (fitsInt32 v) := by
  unfold fitsInt32; infer_instance

/-- The products `scaleImage` forms in `int` arithmetic for destination pixel `(x, y)`:
`width * scalePercent` (line 85), `height * scalePercent` (line 86), `x * width`
(line 92) and `y * height` (line 93). -/
def scaleProducts (width height scalePercent : Int) (y x : Nat) : List Int :=
  [width * scalePercent, height * scalePercent, (x : Int) * width, (y : Int) * height]

/-- A 3x1 image: one row of three pixels and three padding bytes (`rowSizeOf 3 = 12`). -/
def sample3x1 : List Byte :=
  [1, 2, 3, 4, 5, 6, 7, 8, 9, 0, 0, 0]

/-- Lines 46-48 stay within `int`: `width * 3`, `width * 3 + 3`, `abs(ih.biHeight)` and
`rowSize * height` are formed without overflow. Where this holds, the 32-bit arithmetic
of the code has the values that `readPixels` computes over `Int`. -/
def loadFits (ih : BMPInfoHeader) : Prop :=
  fitsInt32 (ih.biWidth * 3) ∧ fitsInt32 (ih.biWidth * 3 + 3) ∧
    fitsInt32 (Int.natAbs ih.biHeight : Int) ∧
    fitsInt32 (rowSizeOf ih.biWidth * (Int.natAbs ih.biHeight : Int))

instance (ih : BMPInfoHeader) : Decidable (loadFits ih) := by
  unfold loadFits; infer_instance

/-- A 54-byte stream whose headers pass the check of line 43 and declare
`biWidth = 715827882` (bytes `AA AA AA 2A`) and `biHeight = 0`. -/
def wideStream : List Byte :=
  [66, 77, 54, 0, 0, 0, 0, 0, 0, 0, 54, 0, 0, 0,
   40, 0, 0, 0, 170, 170, 170, 42, 0, 0, 0, 0, 1, 0, 24, 0, 0, 0, 0, 0, 0, 0, 0, 0,
   19, 11, 0, 0, 19, 11, 0, 0, 0, 0, 0, 0, 0, 0, 0, 0]

/-- One `double` operation returns a rounding `fl v` of its exact value `v`. `IsRounding fl`
is what the theorems on `rotateImageFl` ask of `fl`: the sign is kept and the error is at
most `(|v| + 1) / 2^53`. Binary64 round-to-nearest has an error of at most `2^-53 * |v|`
in the normal range and of at most `2^-1075` below it. -/
def IsRounding (fl : ℚ → ℚ) : Prop :=
  (∀ v : ℚ, 0 ≤ v → 0 ≤ fl v) ∧
    ∀ v : ℚ, abs (fl v - v) ≤ (abs v + 1) / 9007199254740992

/-- The integer nearest to `m`, the even one of the two at a tie. -/
def roundHalfEven (m : ℚ) : Int :=
  if m - ((Int.floor m : Int) : ℚ) < 1 / 2 then Int.floor m
  else if 1 / 2 < m - ((Int.floor m : Int) : ℚ) then Int.floor m + 1
  else if Int.floor m % 2 = 0 then Int.floor m else Int.floor m + 1

/-- The exponent of the leading bit of `n`, that is `floor (log2 n)` for `n ≥ 1`, by
halving at most `fuel` times. -/
def log2Floor : Nat → Nat → Nat
  | 0, _ => 0
  | fuel + 1, n => if n < 2 then 0 else log2Floor fuel (n / 2) + 1

/-- IEEE 754 binary64 round-to-nearest, ties to even, of a rational below the overflow
threshold: the multiple of the unit in the last place `2^(e - 52)` nearest to `q`, where
`2^e ≤ |q| < 2^(e+1)` and `e` is taken at least `-1022` (gradual underflow). The exponent
`e` is `e0` or `e0 - 1` for the difference `e0` of the leading-bit exponents of the
numerator and the denominator of `|q|`. -/
def roundDouble (q : ℚ) : ℚ :=
  if q = 0 then 0
  else
    let a : ℚ := abs q
    let e0 : Int :=
      (log2Floor a.num.natAbs a.num.natAbs : Int) - (log2Floor a.den a.den : Int)
    let e : Int := if (2 : ℚ) ^ e0 ≤ a then e0 else e0 - 1
    let p : Int := max e (-1022) - 52
    let k : Int := roundHalfEven (a / (2 : ℚ) ^ p)
    if 0 ≤ q then (k : ℚ) * (2 : ℚ) ^ p else -((k : ℚ) * (2 : ℚ) ^ p)

/-- Line 106 in `double` arithmetic: the two products and the sum are each rounded by
`fl` (`abs` and the conversion of an `int` to `double` are exact), and the assignment to
the `int` truncates. -/
def rotNewWidthFl (fl : ℚ → ℚ) (width height : Int) (cosA sinA : ℚ) : Int :=
  truncToInt (fl (abs (fl ((width : ℚ) * cosA)) + abs (fl ((height : ℚ) * sinA))))

/-- Line 107 in `double` arithmetic, as `rotNewWidthFl`. -/
def rotNewHeightFl (fl : ℚ → ℚ) (width height : Int) (cosA sinA : ℚ) : Int :=
  truncToInt (fl (abs (fl ((width : ℚ) * sinA)) + abs (fl ((height : ℚ) * cosA))))

/-- Lines 111-122 in `double` arithmetic: every division, subtraction, product and sum
is rounded by `fl`, once each (no fused multiply-add), in the order in which C++
evaluates the expressions (`cosA * dx + sinA * dy + cx` is
`((cosA * dx) + (sinA * dy)) + cx`); negation and `round` are exact. -/
def rotSourceFl (fl : ℚ → ℚ) (width height newWidth newHeight : Int) (cosA sinA : ℚ)
    (y x : Nat) : Int × Int :=
  let cx : ℚ := fl ((width : ℚ) / 2)
  let cy : ℚ := fl ((height : ℚ) / 2)
  let ncx : ℚ := fl ((newWidth : ℚ) / 2)
  let ncy : ℚ := fl ((newHeight : ℚ) / 2)
  let dx : ℚ := fl ((x : ℚ) - ncx)
  let dy : ℚ := fl ((y : ℚ) - ncy)
  let srcX : ℚ := fl (fl (fl (cosA * dx) + fl (sinA * dy)) + cx)
  let srcY : ℚ := fl (fl (fl (-sinA * dx) + fl (cosA * dy)) + cy)
  (truncToInt (cround srcX), truncToInt (cround srcY))

/-- The body of the two loops of `rotateImage` (lines 116-127) for destination pixel
`(x, y)`, in `double` arithmetic. -/
def rotatePixelFl (fl : ℚ → ℚ) (src : List Byte) (width height rowSize : Int)
    (cosA sinA : ℚ) (newWidth newHeight newRowSize : Int) (y x : Nat) (dst : List Byte) :
    Except Err (List Byte) :=
  let ix := (rotSourceFl fl width height newWidth newHeight cosA sinA y x).1
  let iy := (rotSourceFl fl width height newWidth newHeight cosA sinA y x).2
  if ix ≥ 0 ∧ ix < width ∧ iy ≥ 0 ∧ iy < height then
    copyPixel src dst (iy * rowSize + ix * 3) ((y : Int) * newRowSize + (x : Int) * 3)
  else
    .ok dst

/-- The function `rotateImage` (lines 101-130) in `double` arithmetic: `cosA` and `sinA`
are the values that `cos(rad)` and `sin(rad)` return for the angle and `fl` is the
rounding of one `double` operation. With `fl = id` this is `rotateImage`. The result is
`(dst, newWidth, newHeight, newRowSize)`. -/
def rotateImageFl (fl : ℚ → ℚ) (src : List Byte) (width height rowSize : Int)
    (cosA sinA : ℚ) : Except Err (List Byte × Int × Int × Int) :=
  let newWidth := rotNewWidthFl fl width height cosA sinA
  let newHeight := rotNewHeightFl fl width height cosA sinA
  let newRowSize := rowSizeOf newWidth
  match assign (newRowSize * newHeight) 255 with
  | .error e => .error e
  | .ok dst0 =>
    match forLoop newHeight.toNat (fun y dst =>
      forLoop newWidth.toNat (fun x dst =>
        rotatePixelFl fl src width height rowSize cosA sinA newWidth newHeight newRowSize
          y x dst)
        dst) dst0 with
    | .error e => .error e
    | .ok dst => .ok (dst, newWidth, newHeight, newRowSize)

/-- The source offset `rotateImageFl` copies destination pixel `(x, y)` from, if any. -/
def rotSelFl (fl : ℚ → ℚ) (width height rowSize newWidth newHeight : Int) (cosA sinA : ℚ)
    (y x : Nat) : Option Nat :=
  let ix := (rotSourceFl fl width height newWidth newHeight cosA sinA y x).1
  let iy := (rotSourceFl fl width height newWidth newHeight cosA sinA y x).2
  if ix ≥ 0 ∧ ix < width ∧ iy ≥ 0 ∧ iy < height then some (iy * rowSize + ix * 3).toNat
  else none

/-- No `int` value of `rotateImage` leaves the range of `int`: the size
`rowSize * height` of the source surface, the conversions of lines 106 and 107,
`newWidth * 3 + 3` (line 108), `newRowSize * newHeight` (line 109), and the conversions
of `round(srcX)` and `round(srcY)` (line 122) for every destination pixel. -/
def rotFits (fl : ℚ → ℚ) (width height rowSize : Int) (cosA sinA : ℚ) : Prop :=
  fitsInt32 (rowSize * height) ∧
    fitsInt32 (rotNewWidthFl fl width height cosA sinA * 3 + 3) ∧
    fitsInt32 (rotNewHeightFl fl width height cosA sinA) ∧
    fitsInt32 (rowSizeOf (rotNewWidthFl fl width height cosA sinA)
      * rotNewHeightFl fl width height cosA sinA) ∧
    ∀ y, y < (rotNewHeightFl fl width height cosA sinA).toNat →
      ∀ x, x < (rotNewWidthFl fl width height cosA sinA).toNat →
        fitsInt32 (rotSourceFl fl width height (rotNewWidthFl fl width height cosA sinA)
          (rotNewHeightFl fl width height cosA sinA) cosA sinA y x).1 ∧
        fitsInt32 (rotSourceFl fl width height (rotNewWidthFl fl width height cosA sinA)
          (rotNewHeightFl fl width height cosA sinA) cosA sinA y x).2

instance (fl : ℚ → ℚ) (width height rowSize : Int) (cosA sinA : ℚ) :
    Decidable (rotFits fl width height rowSize cosA sinA) := by
  unfold rotFits; infer_instance

/-- A 2x2 image: two rows of two pixels and two padding bytes (`rowSizeOf 2 = 8`). -/
def sample2x2 : List Byte :=
  [1, 2, 3, 4, 5, 6, 7, 8, 9, 10, 11, 12, 13, 14, 15, 16]

/-- The `double` that `cos(30 * M_PI / 180.0)` returns, `0x1.bb67ae8584cabp-1`. -/
def cos30 : ℚ := 7800463371553963 / 9007199254740992

/-- The `double` that `sin(30 * M_PI / 180.0)` returns, `0x1.fffffffffffffp-2`, which is
`1/2 - 2^-54`. -/
def sin30 : ℚ := 9007199254740991 / 18014398509481984

/-- The `double` that `cos(45 * M_PI / 180.0)` returns, `0x1.6a09e667f3bcdp-1`. -/
def cos45 : ℚ := 6369051672525773 / 9007199254740992

/-- The `double` that `sin(45 * M_PI / 180.0)` returns, `0x1.6a09e667f3bccp-1`. -/
def sin45 : ℚ := 1592262918131443 / 2251799813685248

/-! ## Bit masks, loops and single accesses -/

theorem forLoop_inv {σ : Type} (P : Nat → σ → Prop) (body : Nat → σ → Except Err σ)
    (n : Nat) (s0 : σ) (h0 : P 0 s0)
    (hstep : ∀ i s, i < n → P i s → ∃ s', body i s = .ok s' ∧ P (i + 1) s') :
    ∃ s', forLoop n body s0 = .ok s' ∧ P n s' := by
  induction n with
  | zero => exact ⟨s0, rfl, h0⟩
  | succ k ih =>
    obtain ⟨s1, h1, hP1⟩ := ih (fun i s hi hP => hstep i s (Nat.lt_succ_of_lt hi) hP)
    obtain ⟨s2, h2, hP2⟩ := hstep k s1 (Nat.lt_succ_self k) hP1
    exact ⟨s2, by simp only [forLoop, h1, h2], hP2⟩

theorem swapAt_nat (data : List Byte) (i j : Nat) (hi : i < data.length)
    (hj : j < data.length) :
    ∃ d', swapAt data (i : Int) (j : Int) = .ok d' ∧ d'.length = data.length ∧
      ∀ k, d'[k]? = if k = j then data[i]? else if k = i then data[j]? else data[k]? := by
  refine ⟨(data.set i (data.getD j 0)).set j (data.getD i 0), ?_, by simp, ?_⟩
  · unfold swapAt
    simp [hi, hj]
  · intro k
    simp only [List.getElem?_set, List.length_set, List.getD_eq_getElem?_getD]
    by_cases hkj : k = j
    · subst hkj
      simp [hi, hj, List.getElem?_eq_getElem]
    · by_cases hki : k = i
      · subst hki
        simp [hi, hj, List.getElem?_eq_getElem, Ne.symm hkj, hkj]
      · simp [Ne.symm hkj, Ne.symm hki, hkj, hki]

theorem swapRange_spec (d : List Byte) (n a b : Nat) (f g : Nat → Int)
    (hf : ∀ c, c < n → f c = ((a + c : Nat) : Int))
    (hg : ∀ c, c < n → g c = ((b + c : Nat) : Int))
    (hab : a + n ≤ b) (hb : b + n ≤ d.length) :
    ∃ d', forLoop n (fun c data => swapAt data (f c) (g c)) d = .ok d' ∧
      d'.length = d.length ∧
      ∀ k, d'[k]? = if a ≤ k ∧ k < a + n then d[k - a + b]?
        else if b ≤ k ∧ k < b + n then d[k - b + a]? else d[k]? :=
  forLoop_inv
    (fun c (s : List Byte) => s.length = d.length ∧
      ∀ k, s[k]? = if a ≤ k ∧ k < a + c then d[k - a + b]?
        else if b ≤ k ∧ k < b + c then d[k - b + a]? else d[k]?)
    (fun c data => swapAt data (f c) (g c)) n d
    ⟨rfl, fun k => by
      rw [if_neg (by omega), if_neg (by omega)]⟩
    (by
      intro c s hc ⟨hlen, hP⟩
      obtain ⟨s', hs', hlen', hk'⟩ := swapAt_nat s (a + c) (b + c) (by omega) (by omega)
      refine ⟨s', by simp only [hf c hc, hg c hc, hs'], by omega, ?_⟩
      intro k
      rw [hk' k]
      simp only [hP]
      split_ifs <;> first | rfl | (congr 1; omega))

theorem mul_add_le_of_lt {a b c : Nat} (h : a < b) : a * c + c ≤ b * c := by
  calc a * c + c = (a + 1) * c := by ring
    _ ≤ b * c := Nat.mul_le_mul_right c h

theorem mirrorRow_spec (d : List Byte) (r w : Nat) (width row : Int)
    (hw : width = (w : Int)) (hrow : row = (r : Int)) (hr : r + 3 * w ≤ d.length) :
    ∃ d', forLoop (Int.tdiv width 2).toNat (fun x data =>
        forLoop 3 (fun c data =>
          swapAt data (row + ((x : Int) * 3 + (c : Int)))
            (row + ((width - 1 - (x : Int)) * 3 + (c : Int)))) data) d = .ok d' ∧
      d'.length = d.length ∧
      ∀ k, d'[k]? = if r ≤ k ∧ k < r + 3 * w
        then d[r + (w - 1 - (k - r) / 3) * 3 + (k - r) % 3]? else d[k]? := by
  have hn : (Int.tdiv width 2).toNat = w / 2 := by
    rw [hw, Int.tdiv_eq_ediv (by omega) (by omega)]
    omega
  rw [hn]
  obtain ⟨d', hrun, hlen, hP⟩ := forLoop_inv
    (fun x (s : List Byte) => s.length = d.length ∧
      ∀ k, s[k]? = if r ≤ k ∧ k < r + 3 * w ∧ ((k - r) / 3 < x ∨ w - x ≤ (k - r) / 3)
        then d[r + (w - 1 - (k - r) / 3) * 3 + (k - r) % 3]? else d[k]?)
    (fun x data =>
        forLoop 3 (fun c data =>
          swapAt data (row + ((x : Int) * 3 + (c : Int)))
            (row + ((width - 1 - (x : Int)) * 3 + (c : Int)))) data) (w / 2) d
    ⟨rfl, fun k => by
      rw [if_neg (by omega)]⟩
    (by
      intro x s hx ⟨hlen, hP⟩
      obtain ⟨s', hs', hlen', hk'⟩ := swapRange_spec s 3 (r + 3 * x) (r + 3 * (w - 1 - x))
        (fun c => row + ((x : Int) * 3 + (c : Int)))
        (fun c => row + ((width - 1 - (x : Int)) * 3 + (c : Int)))
        (by intro c _; simp only []; omega)
        (by intro c _; simp only []; omega)
        (by omega) (by omega)
      refine ⟨s', hs', by omega, ?_⟩
      intro k
      rw [hk' k]
      simp only [hP]
      split_ifs <;> first | rfl | (congr 1; omega))
  refine ⟨d', hrun, hlen, ?_⟩
  intro k
  rw [hP k]
  split_ifs <;> first | rfl | (congr 1; omega)
theorem horizontalMirror_spec (d : List Byte) (w h rs : Nat) (hrs : 3 * w ≤ rs)
    (hlen : d.length = rs * h) :
    ∃ d', horizontalMirror d (w : Int) (h : Int) (rs : Int) = .ok d' ∧
      d'.length = d.length ∧
      ∀ y r, r < rs → d'[y * rs + r]? = if r < 3 * w
        then d[y * rs + ((w - 1 - r / 3) * 3 + r % 3)]? else d[y * rs + r]? := by
  unfold horizontalMirror
  rw [Int.toNat_ofNat]
  obtain ⟨d', hrun, hlen', hP⟩ := forLoop_inv
    (fun y (s : List Byte) => s.length = d.length ∧
      ∀ y' r, r < rs → s[y' * rs + r]? = if y' < y ∧ r < 3 * w
        then d[y' * rs + ((w - 1 - r / 3) * 3 + r % 3)]? else d[y' * rs + r]?)
    _ h d
    ⟨rfl, fun y' r _ => by rw [if_neg (by omega)]⟩
    (by
      intro y s hy ⟨hl, hP⟩
      have hyh : y * rs + rs ≤ h * rs := mul_add_le_of_lt hy
      have hcomm : rs * h = h * rs := Nat.mul_comm _ _
      obtain ⟨s', hs', hl', hk'⟩ := mirrorRow_spec s (y * rs) w (w : Int)
        ((y : Int) * (rs : Int)) rfl (by push_cast; rfl) (by omega)
      refine ⟨s', hs', by omega, ?_⟩
      intro y' r hr
      rw [hk' (y' * rs + r)]
      rcases Nat.lt_trichotomy y' y with hlt | heq | hgt
      · have := mul_add_le_of_lt (c := rs) hlt
        rw [if_neg (by omega), hP y' r hr]
        simp only [hlt, Nat.lt_succ_of_lt hlt, true_and]
      · subst heq
        by_cases hr3 : r < 3 * w
        · rw [if_pos (by omega), if_pos (by omega)]
          have e1 : y' * rs + (w - 1 - (y' * rs + r - y' * rs) / 3) * 3 +
              (y' * rs + r - y' * rs) % 3 = y' * rs + ((w - 1 - r / 3) * 3 + r % 3) := by
            rw [Nat.add_sub_cancel_left]; omega
          rw [e1, hP y' _ (by omega), if_neg (by omega)]
        · rw [if_neg (by omega), if_neg (by omega), hP y' r hr, if_neg (by omega)]
      · have := mul_add_le_of_lt (c := rs) hgt
        rw [if_neg (by omega), hP y' r hr, if_neg (by omega), if_neg (by omega)])
  exact ⟨d', hrun, hlen', fun y r hr => by
    rw [hP y r hr]
    by_cases hy : y < h
    · simp only [hy, true_and]
    · have hge : h * rs ≤ y * rs := Nat.mul_le_mul_right rs (by omega)
      have hcomm : rs * h = h * rs := Nat.mul_comm _ _
      have hn : ∀ j, d[y * rs + j]? = none := fun j =>
        List.getElem?_eq_none (by omega)
      simp only [hy, false_and, if_false, hn, ite_self]⟩

theorem ldiff_three (m : Nat) : Nat.ldiff m 3 = m / 4 * 4 := by
  apply Nat.eq_of_testBit_eq
  intro i
  have h4 : m / 4 * 4 = 2 ^ 2 * (m >>> 2) := by
    rw [Nat.shiftRight_eq_div_pow]; omega
  rw [Nat.testBit_ldiff, h4, Nat.testBit_mul_pow_two, Nat.testBit_shiftRight]
  have h3 : (3 : Nat).testBit i = decide (i < 2) := Nat.testBit_two_pow_sub_one 2 i
  rw [h3]
  by_cases hi : i < 2
  · have : ¬ (i ≥ 2) := by omega
    simp [hi, this]
  · have h2 : i ≥ 2 := by omega
    have e : 2 + (i - 2) = i := by omega
    simp [hi, h2, e]

theorem lor_three (m : Nat) : m ||| 3 = m / 4 * 4 + 3 := by
  apply Nat.eq_of_testBit_eq
  intro i
  have h4 : m / 4 * 4 + 3 = 2 ^ 2 * (m >>> 2) + 3 := by
    rw [Nat.shiftRight_eq_div_pow]; omega
  rw [Nat.testBit_lor, h4, Nat.testBit_mul_pow_two_add _ (by decide), Nat.testBit_shiftRight]
  have h3 : (3 : Nat).testBit i = decide (i < 2) := Nat.testBit_two_pow_sub_one 2 i
  rw [h3]
  by_cases hi : i < 2
  · simp [hi]
  · have e : 2 + (i - 2) = i := by omega
    simp [hi, e]

/-- The arithmetic form of `& ~3` used by `andNot3` is the bitwise operation, for
negative values too. -/
theorem andNot3_eq_land (v : Int) : andNot3 v = Int.land v (~~~(3 : Int)) := by
  have h2 : (~~~(3 : Int)) = Int.negSucc 3 := rfl
  rw [h2]
  unfold andNot3
  cases v with
  | ofNat m =>
    show _ = ((Nat.ldiff m 3 : Nat) : Int)
    rw [ldiff_three]
    simp only [Int.ofNat_eq_coe]
    omega
  | negSucc m =>
    show _ = Int.negSucc (m ||| 3)
    rw [lor_three, Int.negSucc_eq, Int.negSucc_eq]
    omega

theorem rowSizeOf_natCast (w : Nat) :
    rowSizeOf (w : Int) = (((w * 3 + 3) / 4 * 4 : Nat) : Int) := by
  unfold rowSizeOf andNot3
  omega

theorem list_eq_of_rows {d1 d2 : List Byte} (rs : Nat) (hl : d1.length = d2.length)
    (h0 : rs = 0 → d2.length = 0)
    (h : ∀ y r, r < rs → d1[y * rs + r]? = d2[y * rs + r]?) : d1 = d2 := by
  apply List.ext_getElem?
  intro k
  by_cases hrs : rs = 0
  · have h2 := h0 hrs
    rw [List.getElem?_eq_none (by omega), List.getElem?_eq_none (by omega)]
  · have hpos : 0 < rs := Nat.pos_of_ne_zero hrs
    have hk := h (k / rs) (k % rs) (Nat.mod_lt _ hpos)
    rwa [Nat.div_add_mod'] at hk

/-- C1: for `width ≥ 0`, `height ≥ 0`, `rowSize = (width*3+3) & ~3` and a buffer of
`rowSize * height` bytes, running `horizontalMirror` twice with the same arguments
returns, without error, a buffer equal byte for byte to the original. -/
theorem horizontalMirror_involution (data : List Byte) (width height : Int)
    (hw : 0 ≤ width) (hh : 0 ≤ height)
    (hlen : (data.length : Int) = rowSizeOf width * height) :
    (horizontalMirror data width height (rowSizeOf width) >>= fun d' =>
      horizontalMirror d' width height (rowSizeOf width)) = .ok data := by
  obtain ⟨w, rfl⟩ := Int.eq_ofNat_of_zero_le hw
  obtain ⟨h, rfl⟩ := Int.eq_ofNat_of_zero_le hh
  rw [rowSizeOf_natCast] at hlen ⊢
  generalize hrs : (w * 3 + 3) / 4 * 4 = rs at hlen ⊢
  have h3 : 3 * w ≤ rs := by omega
  have hlenN : data.length = rs * h := by exact_mod_cast hlen
  obtain ⟨d1, hrun1, hl1, hP1⟩ := horizontalMirror_spec data w h rs h3 hlenN
  obtain ⟨d2, hrun2, hl2, hP2⟩ := horizontalMirror_spec d1 w h rs h3 (by omega)
  have hd : d2 = data := by
    apply list_eq_of_rows rs (by omega) (by intro h0; rw [hlenN, h0, Nat.zero_mul])
    intro y r hr
    rw [hP2 y r hr]
    by_cases hr3 : r < 3 * w
    · rw [if_pos hr3, hP1 y _ (by omega), if_pos (by omega)]
      congr 1
      omega
    · rw [if_neg hr3, hP1 y r hr, if_neg hr3]
  rw [hrun1]
  show horizontalMirror d1 _ _ _ = _
  rw [hrun2, hd]

theorem horizontalMirror_involution_witness :
    (horizontalMirror [1, 2, 3, 4, 5, 6, 0, 0] 2 1 (rowSizeOf 2) >>= fun d' =>
      horizontalMirror d' 2 1 (rowSizeOf 2)) = .ok [1, 2, 3, 4, 5, 6, 0, 0] :=
  horizontalMirror_involution [1, 2, 3, 4, 5, 6, 0, 0] 2 1 (by decide) (by decide) (by decide)

theorem verticalMirror_spec (d : List Byte) (width : Int) (h rs : Nat)
    (hlen : d.length = rs * h) :
    ∃ d', verticalMirror d width (h : Int) (rs : Int) = .ok d' ∧
      d'.length = d.length ∧
      ∀ y r, r < rs → d'[y * rs + r]? = if y < h
        then d[(h - 1 - y) * rs + r]? else d[y * rs + r]? := by
  unfold verticalMirror
  have hn : (Int.tdiv (h : Int) 2).toNat = h / 2 := by
    rw [Int.tdiv_eq_ediv (by omega) (by omega)]
    omega
  rw [hn, Int.toNat_ofNat]
  have hcomm : rs * h = h * rs := Nat.mul_comm _ _
  obtain ⟨d', hrun, hlen', hP⟩ := forLoop_inv
    (fun y (s : List Byte) => s.length = d.length ∧
      ∀ y' r, r < rs → s[y' * rs + r]? = if y' < h ∧ (y' < y ∨ h - y ≤ y')
        then d[(h - 1 - y') * rs + r]? else d[y' * rs + r]?)
    _ (h / 2) d
    ⟨rfl, fun y' r _ => by rw [if_neg (by omega)]⟩
    (by
      intro y s hy ⟨hl, hP⟩
      have hyB : y * rs + rs ≤ (h - 1 - y) * rs := mul_add_le_of_lt (by omega)
      have hBh : (h - 1 - y) * rs + rs ≤ h * rs := mul_add_le_of_lt (by omega)
      obtain ⟨s', hs', hl', hk'⟩ := swapRange_spec s rs (y * rs) ((h - 1 - y) * rs)
        (fun x => (y : Int) * (rs : Int) + (x : Int))
        (fun x => ((h : Int) - 1 - (y : Int)) * (rs : Int) + (x : Int))
        (by intro c _; push_cast; rfl)
        (by intro c _; rw [show ((h : Int) - 1 - (y : Int)) = ((h - 1 - y : Nat) : Int) by omega]
            push_cast; rfl)
        hyB (by omega)
      refine ⟨s', hs', by omega, ?_⟩
      intro y' r hr
      rw [hk' (y' * rs + r)]
      by_cases h1 : y' = y
      · subst h1
        rw [if_pos (by omega), if_pos (by omega)]
        have e : y' * rs + r - y' * rs + (h - 1 - y') * rs = (h - 1 - y') * rs + r := by omega
        rw [e, hP (h - 1 - y') r hr, if_neg (by omega)]
      · by_cases h2 : y' = h - 1 - y
        · subst h2
          rw [if_neg (by omega), if_pos (by omega), if_pos (by omega)]
          have e : (h - 1 - y) * rs + r - (h - 1 - y) * rs + y * rs = y * rs + r := by omega
          have e2 : h - 1 - (h - 1 - y) = y := by omega
          rw [e, e2, hP y r hr, if_neg (by omega)]
        · have f1 : y' * rs + rs ≤ y * rs ∨ y * rs + rs ≤ y' * rs := by
            rcases Nat.lt_or_gt_of_ne h1 with hlt | hgt
            · exact Or.inl (mul_add_le_of_lt hlt)
            · exact Or.inr (mul_add_le_of_lt hgt)
          have f2 : y' * rs + rs ≤ (h - 1 - y) * rs ∨ (h - 1 - y) * rs + rs ≤ y' * rs := by
            rcases Nat.lt_or_gt_of_ne h2 with hlt | hgt
            · exact Or.inl (mul_add_le_of_lt hlt)
            · exact Or.inr (mul_add_le_of_lt hgt)
          rw [if_neg (by omega), if_neg (by omega), hP y' r hr]
          by_cases hc : y' < h ∧ (y' < y ∨ h - y ≤ y')
          · rw [if_pos hc, if_pos (by omega)]
          · rw [if_neg hc, if_neg (by omega)])
  refine ⟨d', hrun, hlen', fun y r hr => ?_⟩
  rw [hP y r hr]
  by_cases hy : y < h
  · rw [if_pos hy]
    by_cases hc : y < h / 2 ∨ h - h / 2 ≤ y
    · rw [if_pos ⟨hy, hc⟩]
    · rw [if_neg (by omega)]
      have e : h - 1 - y = y := by omega
      rw [e]
  · rw [if_neg hy, if_neg (by omega)]

/-- C2: for `height ≥ 0`, `rowSize ≥ 0`, any `width` and a buffer of `rowSize * height`
bytes, running `verticalMirror` twice returns, without error, a buffer equal byte for
byte to the original; the statement is about whole padded rows, so pixel bytes and
padding bytes alike. -/
theorem verticalMirror_involution (data : List Byte) (width height rowSize : Int)
    (hh : 0 ≤ height) (hr : 0 ≤ rowSize)
    (hlen : (data.length : Int) = rowSize * height) :
    (verticalMirror data width height rowSize >>= fun d' =>
      verticalMirror d' width height rowSize) = .ok data := by
  obtain ⟨h, rfl⟩ := Int.eq_ofNat_of_zero_le hh
  obtain ⟨rs, rfl⟩ := Int.eq_ofNat_of_zero_le hr
  have hlenN : data.length = rs * h := by exact_mod_cast hlen
  obtain ⟨d1, hrun1, hl1, hP1⟩ := verticalMirror_spec data width h rs hlenN
  obtain ⟨d2, hrun2, hl2, hP2⟩ := verticalMirror_spec d1 width h rs (by omega)
  have hd : d2 = data := by
    apply list_eq_of_rows rs (by omega) (by intro h0; rw [hlenN, h0, Nat.zero_mul])
    intro y r hr
    rw [hP2 y r hr]
    by_cases hy : y < h
    · rw [if_pos hy, hP1 _ r hr, if_pos (by omega)]
      have e : h - 1 - (h - 1 - y) = y := by omega
      rw [e]
    · rw [if_neg hy, hP1 y r hr, if_neg hy]
  rw [hrun1]
  show verticalMirror d1 width (h : Int) (rs : Int) = _
  rw [hrun2, hd]

theorem verticalMirror_involution_witness :
    (verticalMirror [1, 2, 3, 9, 4, 5, 6, 8] 1 2 4 >>= fun d' =>
      verticalMirror d' 1 2 4) = .ok [1, 2, 3, 9, 4, 5, 6, 8] :=
  verticalMirror_involution [1, 2, 3, 9, 4, 5, 6, 8] 1 2 4 (by decide) (by decide)
    (by decide)

theorem copyPixel_nat (src dst : List Byte) (so dp : Nat) (hs : so + 3 ≤ src.length)
    (hd : dp + 3 ≤ dst.length) :
    ∃ d', copyPixel src dst (so : Int) (dp : Int) = .ok d' ∧ d'.length = dst.length ∧
      ∀ k, d'[k]? = if dp ≤ k ∧ k < dp + 3 then src[so + (k - dp)]? else dst[k]? := by
  refine ⟨((dst.set dp (src.getD so 0)).set (dp + 1)
      (src.getD (so + 1) 0)).set (dp + 2) (src.getD (so + 2) 0), ?_, ?_, ?_⟩
  · unfold copyPixel
    rw [if_pos (by simp only [Int.toNat_ofNat]; omega)]
    simp only [Int.toNat_ofNat]
  · simp
  · intro k
    simp only [List.getElem?_set, List.length_set, List.getD_eq_getElem?_getD]
    have h0 : src[so]? = some src[so] := List.getElem?_eq_getElem (by omega)
    have h1 : src[so + 1]? = some src[so + 1] := List.getElem?_eq_getElem (by omega)
    have h2 : src[so + 2]? = some src[so + 2] := List.getElem?_eq_getElem (by omega)
    by_cases e2 : dp + 2 = k
    · subst e2
      rw [if_pos rfl, if_pos (by omega), if_pos (by omega)]
      rw [show so + (dp + 2 - dp) = so + 2 by omega, h2]; rfl
    · rw [if_neg e2]
      by_cases e1 : dp + 1 = k
      · subst e1
        rw [if_pos rfl, if_pos (by omega), if_pos (by omega)]
        rw [show so + (dp + 1 - dp) = so + 1 by omega, h1]; rfl
      · rw [if_neg e1]
        by_cases e0 : dp = k
        · subst e0
          rw [if_pos rfl, if_pos (by omega), if_pos (by omega)]
          rw [show so + (dp - dp) = so by omega, h0]; rfl
        · rw [if_neg e0, if_neg (by omega)]

theorem pixelRow_spec (src s0 : List Byte) (sel : Nat → Nat → Option Nat)
    (body : Nat → List Byte → Except Err (List Byte)) (nw nrs y : Nat)
    (hrow : y * nrs + 3 * nw ≤ s0.length)
    (hsel : ∀ x so, x < nw → sel y x = some so → so + 3 ≤ src.length)
    (hbody : ∀ x dst, x < nw → dst.length = s0.length → body x dst =
      match sel y x with
      | some so => copyPixel src dst (so : Int) ((y * nrs + x * 3 : Nat) : Int)
      | none => .ok dst) :
    ∃ d', forLoop nw body s0 = .ok d' ∧ d'.length = s0.length ∧
      ∀ k, d'[k]? = if y * nrs ≤ k ∧ k < y * nrs + 3 * nw
        then pixelByte src s0 sel nrs y (k - y * nrs) else s0[k]? := by
  obtain ⟨d', hrun, hlen, hP⟩ := forLoop_inv
    (fun x (s : List Byte) => s.length = s0.length ∧
      ∀ k, s[k]? = if y * nrs ≤ k ∧ k < y * nrs + 3 * x
        then pixelByte src s0 sel nrs y (k - y * nrs) else s0[k]?)
    body nw s0
    ⟨rfl, fun k => by rw [if_neg (by omega)]⟩
    (by
      intro x s hx ⟨hl, hP⟩
      rw [hbody x s hx hl]
      cases hs : sel y x with
      | none =>
        refine ⟨s, rfl, hl, fun k => ?_⟩
        rw [hP k]
        by_cases hk : y * nrs ≤ k ∧ k < y * nrs + 3 * x
        · rw [if_pos hk, if_pos (by omega)]
        · rw [if_neg hk]
          by_cases hk2 : y * nrs ≤ k ∧ k < y * nrs + 3 * (x + 1)
          · rw [if_pos hk2]
            have e : (k - y * nrs) / 3 = x := by omega
            unfold pixelByte
            rw [e, hs]
            simp only []
            congr 1; omega
          · rw [if_neg hk2]
      | some so =>
        obtain ⟨s', hs', hl', hk'⟩ := copyPixel_nat src s so (y * nrs + x * 3)
          (hsel x so hx hs) (by omega)
        refine ⟨s', hs', by omega, fun k => ?_⟩
        rw [hk' k]
        by_cases hk : y * nrs + x * 3 ≤ k ∧ k < y * nrs + x * 3 + 3
        · rw [if_pos hk, if_pos (by omega)]
          have e : (k - y * nrs) / 3 = x := by omega
          unfold pixelByte
          rw [e, hs]
          simp only []
          congr 1; omega
        · rw [if_neg hk, hP k]
          by_cases hk2 : y * nrs ≤ k ∧ k < y * nrs + 3 * x
          · rw [if_pos hk2, if_pos (by omega)]
          · rw [if_neg hk2, if_neg (by omega)])
  exact ⟨d', hrun, hlen, hP⟩

theorem pixelLoop_spec (src dst0 : List Byte) (sel : Nat → Nat → Option Nat)
    (body : Nat → Nat → List Byte → Except Err (List Byte)) (nw nh nrs : Nat)
    (hrs : 3 * nw ≤ nrs) (hlen : dst0.length = nrs * nh)
    (hsel : ∀ y x so, y < nh → x < nw → sel y x = some so → so + 3 ≤ src.length)
    (hbody : ∀ y x dst, y < nh → x < nw → dst.length = dst0.length → body y x dst =
      match sel y x with
      | some so => copyPixel src dst (so : Int) ((y * nrs + x * 3 : Nat) : Int)
      | none => .ok dst) :
    ∃ d', forLoop nh (fun y dst => forLoop nw (fun x dst => body y x dst) dst) dst0 = .ok d' ∧
      d'.length = dst0.length ∧
      ∀ y r, r < nrs → d'[y * nrs + r]? = if y < nh ∧ r < 3 * nw
        then pixelByte src dst0 sel nrs y r else dst0[y * nrs + r]? := by
  have hcomm : nrs * nh = nh * nrs := Nat.mul_comm _ _
  obtain ⟨d', hrun, hlen', hP⟩ := forLoop_inv
    (fun y (s : List Byte) => s.length = dst0.length ∧
      ∀ y' r, r < nrs → s[y' * nrs + r]? = if y' < y ∧ r < 3 * nw
        then pixelByte src dst0 sel nrs y' r else dst0[y' * nrs + r]?)
    (fun y dst => forLoop nw (fun x dst => body y x dst) dst) nh dst0
    ⟨rfl, fun y' r _ => by rw [if_neg (by omega)]⟩
    (by
      intro y s hy ⟨hl, hP⟩
      have hyh : y * nrs + nrs ≤ nh * nrs := mul_add_le_of_lt hy
      obtain ⟨s', hs', hl', hk'⟩ := pixelRow_spec src s sel (fun x dst => body y x dst)
        nw nrs y (by omega) (fun x so hx => hsel y x so hy hx)
        (fun x dst hx hd => hbody y x dst hy hx (by omega))
      refine ⟨s', hs', by omega, ?_⟩
      intro y' r hr
      rw [hk' (y' * nrs + r)]
      rcases Nat.lt_trichotomy y' y with hlt | heq | hgt
      · have := mul_add_le_of_lt (c := nrs) hlt
        rw [if_neg (by omega), hP y' r hr]
        by_cases hr3 : r < 3 * nw
        · rw [if_pos ⟨hlt, hr3⟩, if_pos ⟨Nat.lt_succ_of_lt hlt, hr3⟩]
        · rw [if_neg (by omega), if_neg (by omega)]
      · subst heq
        by_cases hr3 : r < 3 * nw
        · rw [if_pos (by omega), if_pos (by omega), Nat.add_sub_cancel_left]
          unfold pixelByte
          cases sel y' (r / 3) with
          | none =>
            simp only []
            rw [hP y' r hr, if_neg (by omega)]
          | some so => rfl
        · rw [if_neg (by omega), if_neg (by omega), hP y' r hr, if_neg (by omega)]
      · have := mul_add_le_of_lt (c := nrs) hgt
        rw [if_neg (by omega), hP y' r hr, if_neg (by omega), if_neg (by omega)])
  exact ⟨d', hrun, hlen', hP⟩

theorem tdiv_natCast (a b : Nat) : Int.tdiv (a : Int) (b : Int) = ((a / b : Nat) : Int) := by
  rw [Int.tdiv_eq_ediv (by omega) (by omega)]
  exact (Int.natCast_div a b).symm

theorem scaleImage_spec (src : List Byte) (w h rs p : Nat) (hrs : 3 * w ≤ rs)
    (hlen : src.length = rs * h) :
    ∃ dst, scaleImage src (w : Int) (h : Int) (rs : Int) (p : Int) =
        .ok (dst, ((w * p / 100 : Nat) : Int), ((h * p / 100 : Nat) : Int),
          ((((w * p / 100) * 3 + 3) / 4 * 4 : Nat) : Int)) ∧
      dst.length = (((w * p / 100) * 3 + 3) / 4 * 4) * (h * p / 100) ∧
      ∀ y r, r < ((w * p / 100) * 3 + 3) / 4 * 4 →
        dst[y * (((w * p / 100) * 3 + 3) / 4 * 4) + r]? =
          if y < h * p / 100 ∧ r < 3 * (w * p / 100)
          then src[(y * h / (h * p / 100)) * rs + (r / 3 * w / (w * p / 100)) * 3 + r % 3]?
          else (List.replicate ((((w * p / 100) * 3 + 3) / 4 * 4) * (h * p / 100))
            (0 : Byte))[y * (((w * p / 100) * 3 + 3) / 4 * 4) + r]? := by
  generalize hnw : w * p / 100 = nw
  generalize hnh : h * p / 100 = nh
  generalize hnrs : (nw * 3 + 3) / 4 * 4 = nrs
  have e1 : Int.tdiv ((w : Int) * (p : Int)) 100 = (nw : Int) := by
    rw [← hnw]
    exact_mod_cast tdiv_natCast (w * p) 100
  have e2 : Int.tdiv ((h : Int) * (p : Int)) 100 = (nh : Int) := by
    rw [← hnh]
    exact_mod_cast tdiv_natCast (h * p) 100
  have e3 : rowSizeOf (nw : Int) = (nrs : Int) := by
    rw [rowSizeOf_natCast, hnrs]
  have e4 : assign ((nrs : Int) * (nh : Int)) 0 = .ok (List.replicate (nrs * nh) (0 : Byte)) := by
    have hnn : (0 : Int) ≤ (nrs : Int) * (nh : Int) := by positivity
    have htn : ((nrs : Int) * (nh : Int)).toNat = nrs * nh := by
      exact_mod_cast Int.toNat_ofNat (nrs * nh)
    unfold assign
    rw [if_neg (by omega), htn]
  have hcomm : rs * h = h * rs := Nat.mul_comm _ _
  obtain ⟨d', hrun, hlen', hP⟩ := pixelLoop_spec src (List.replicate (nrs * nh) (0 : Byte))
    (fun y x => some ((y * h / nh) * rs + (x * w / nw) * 3))
    (fun y x dst => scalePixel src (w : Int) (h : Int) (rs : Int) (nw : Int) (nh : Int)
      (nrs : Int) y x dst)
    nw nh nrs (by omega) (by simp)
    (by
      intro y x so hy hx hso
      simp only [Option.some.injEq] at hso
      subst hso
      have hhpos : 0 < h := by
        rcases Nat.eq_zero_or_pos h with h0 | h0
        · subst h0; simp at hnh; omega
        · exact h0
      have hwpos : 0 < w := by
        rcases Nat.eq_zero_or_pos w with h0 | h0
        · subst h0; simp at hnw; omega
        · exact h0
      have hY : y * h / nh < h := Nat.div_lt_of_lt_mul (by
        have := mul_add_le_of_lt (c := h) hy
        omega)
      have hX : x * w / nw < w := Nat.div_lt_of_lt_mul (by
        have := mul_add_le_of_lt (c := w) hx
        omega)
      have := mul_add_le_of_lt (c := rs) hY
      omega)
    (by
      intro y x dst hy hx _
      have c1 : cdiv ((x : Int) * (w : Int)) (nw : Int) = .ok ((x * w / nw : Nat) : Int) := by
        unfold cdiv
        rw [if_neg (by omega), ← tdiv_natCast]
        push_cast
        rfl
      have c2 : cdiv ((y : Int) * (h : Int)) (nh : Int) = .ok ((y * h / nh : Nat) : Int) := by
        unfold cdiv
        rw [if_neg (by omega), ← tdiv_natCast]
        push_cast
        rfl
      simp only [scalePixel, c1, c2]
      congr 1)
  refine ⟨d', ?_, by rw [hlen']; simp, ?_⟩
  · unfold scaleImage
    simp only [e1, e2, e3, e4, Int.toNat_ofNat]
    rw [hrun]
  · intro y r hr
    rw [hP y r hr]
    by_cases hc : y < nh ∧ r < 3 * nw
    · rw [if_pos hc, if_pos hc]
      unfold pixelByte
      simp only []
    · rw [if_neg hc, if_neg hc]

/-- C3: for a source with `width > 0`, `height > 0`, `rowSize = (width*3+3) & ~3` and
`rowSize * height` bytes, `scaleImage` with `scalePercent = 100` returns
`newWidth = width`, `newHeight = height`, `newRowSize = rowSize`, and for every pixel
`(x, y)` of the image each of the three bytes of the output at offset
`y*newRowSize + x*3` is the byte of the input at offset `y*rowSize + x*3`. -/
theorem scaleImage_100_identity (src : List Byte) (width height : Int)
    (hw : 0 < width) (hh : 0 < height)
    (hlen : (src.length : Int) = rowSizeOf width * height) :
    ∃ dst, scaleImage src width height (rowSizeOf width) 100 =
        .ok (dst, width, height, rowSizeOf width) ∧
      ∀ x y c : Nat, (x : Int) < width → (y : Int) < height → c < 3 →
        ∃ b, dst[((y : Int) * rowSizeOf width + (x : Int) * 3 + (c : Int)).toNat]? = some b ∧
          src[((y : Int) * rowSizeOf width + (x : Int) * 3 + (c : Int)).toNat]? = some b := by
  obtain ⟨w, rfl⟩ := Int.eq_ofNat_of_zero_le (Int.le_of_lt hw)
  obtain ⟨h, rfl⟩ := Int.eq_ofNat_of_zero_le (Int.le_of_lt hh)
  rw [rowSizeOf_natCast] at hlen ⊢
  generalize hrs : (w * 3 + 3) / 4 * 4 = rs at hlen ⊢
  have hlenN : src.length = rs * h := by exact_mod_cast hlen
  obtain ⟨dst, hrun, hl, hP⟩ := scaleImage_spec src w h rs 100 (by omega) hlenN
  have ew : w * 100 / 100 = w := Nat.mul_div_cancel w (by decide)
  have eh : h * 100 / 100 = h := Nat.mul_div_cancel h (by decide)
  rw [ew, eh, hrs] at hrun hl hP
  have hwN : 0 < w := by omega
  have hhN : 0 < h := by omega
  refine ⟨dst, by exact_mod_cast hrun, ?_⟩
  intro x y c hx hy hc
  have hxN : x < w := by omega
  have hyN : y < h := by omega
  have hidx : ((y : Int) * (rs : Int) + (x : Int) * 3 + (c : Int)).toNat
      = y * rs + (x * 3 + c) := by
    have : ((y : Int) * (rs : Int) + (x : Int) * 3 + (c : Int))
        = ((y * rs + (x * 3 + c) : Nat) : Int) := by push_cast; ring
    rw [this, Int.toNat_ofNat]
  have hyrs := mul_add_le_of_lt (c := rs) hyN
  have hcomm : rs * h = h * rs := Nat.mul_comm _ _
  have hin : y * rs + (x * 3 + c) < src.length := by omega
  refine ⟨src[y * rs + (x * 3 + c)], ?_, ?_⟩
  · rw [hidx, hP y (x * 3 + c) (by omega), if_pos (by omega)]
    have e1 : y * h / h = y := Nat.mul_div_cancel y hhN
    have e2 : (x * 3 + c) / 3 * w / w = x := by
      rw [Nat.mul_div_cancel _ hwN]; omega
    have e3 : (x * 3 + c) % 3 = c := by omega
    have e4 : y * rs + x * 3 + c = y * rs + (x * 3 + c) := by omega
    rw [e1, e2, e3, e4, List.getElem?_eq_getElem hin]
  · rw [hidx, List.getElem?_eq_getElem hin]

theorem scaleImage_100_identity_witness :
    ∃ dst, scaleImage [1, 2, 3, 0] 1 1 (rowSizeOf 1) 100 = .ok (dst, 1, 1, rowSizeOf 1) ∧
      ∀ x y c : Nat, (x : Int) < 1 → (y : Int) < 1 → c < 3 →
        ∃ b, dst[((y : Int) * rowSizeOf 1 + (x : Int) * 3 + (c : Int)).toNat]? = some b ∧
          ([1, 2, 3, 0] : List Byte)[((y : Int) * rowSizeOf 1 + (x : Int) * 3
            + (c : Int)).toNat]? = some b :=
  scaleImage_100_identity [1, 2, 3, 0] 1 1 (by decide) (by decide) (by decide)

/-- C5 (as stated, refuted): a 1x1 source scaled by 50 has `newWidth = newHeight = 0`,
and `scaleImage` returns the zero-area surface; it does not fail. -/
theorem scaleImage_degenerate_returns :
    scaleImage [1, 2, 3, 0] 1 1 (rowSizeOf 1) 50 = .ok ([], 0, 0, 0) ∧
      ¬ ∃ e, scaleImage [1, 2, 3, 0] 1 1 (rowSizeOf 1) 50 = .error e := by
  have hok : scaleImage [1, 2, 3, 0] 1 1 (rowSizeOf 1) 50 = .ok ([], 0, 0, 0) := by decide
  refine ⟨hok, ?_⟩
  rintro ⟨e, he⟩
  rw [hok] at he
  cases he

/-- C5 (amended): for `width > 0`, `height > 0`, `p > 0` with `width*p/100 = 0` or
`height*p/100 = 0`, where the products `width*p` and `height*p` of lines 85-86 fit an
`int`, `scaleImage` returns without error, for any source buffer and row size: the
output buffer is empty, `newWidth = width*p/100`, `newHeight = height*p/100` and
`newRowSize = (newWidth*3+3) & ~3`. No division is evaluated: a division by zero would
be the result `.error .divisionByZero`. The other `int` values of lines 87-88,
`newWidth*3+3` and `newRowSize*newHeight`, then fit an `int` as well. -/
theorem scaleImage_degenerate (src : List Byte) (width height rowSize p : Int)
    (hw : 0 < width) (hh : 0 < height) (hp : 0 < p)
    (hfw : fitsInt32 (width * p)) (_hfh : fitsInt32 (height * p))
    (hz : Int.tdiv (width * p) 100 = 0 ∨ Int.tdiv (height * p) 100 = 0) :
    scaleImage src width height rowSize p =
        .ok ([], Int.tdiv (width * p) 100, Int.tdiv (height * p) 100,
          rowSizeOf (Int.tdiv (width * p) 100)) ∧
      fitsInt32 (Int.tdiv (width * p) 100 * 3 + 3) ∧
      fitsInt32 (rowSizeOf (Int.tdiv (width * p) 100) * Int.tdiv (height * p) 100) := by
  obtain ⟨w, rfl⟩ := Int.eq_ofNat_of_zero_le (Int.le_of_lt hw)
  obtain ⟨h, rfl⟩ := Int.eq_ofNat_of_zero_le (Int.le_of_lt hh)
  obtain ⟨q, rfl⟩ := Int.eq_ofNat_of_zero_le (Int.le_of_lt hp)
  have e1 : Int.tdiv ((w : Int) * (q : Int)) 100 = ((w * q / 100 : Nat) : Int) := by
    exact_mod_cast tdiv_natCast (w * q) 100
  have e2 : Int.tdiv ((h : Int) * (q : Int)) 100 = ((h * q / 100 : Nat) : Int) := by
    exact_mod_cast tdiv_natCast (h * q) 100
  have hb : w * q / 100 ≤ 21474836 := by
    have h1 : ((w * q : Nat) : Int) ≤ 2147483647 := by push_cast; exact hfw.2
    omega
  rw [e1, e2] at hz ⊢
  generalize w * q / 100 = nw at e1 hz hb ⊢
  generalize h * q / 100 = nh at e2 hz ⊢
  have hz' : nw = 0 ∨ nh = 0 := by omega
  rw [rowSizeOf_natCast]
  generalize hnrs : (nw * 3 + 3) / 4 * 4 = nrs
  have hzero : nrs * nh = 0 := by
    rcases hz' with h0 | h0
    · subst h0; simp at hnrs; subst hnrs; simp
    · subst h0; simp
  have e4 : assign ((nrs : Int) * (nh : Int)) 0 = .ok [] := by
    have htn : ((nrs : Int) * (nh : Int)) = 0 := by exact_mod_cast hzero
    rw [htn]
    rfl
  obtain ⟨d', hrun, hlen', -⟩ := pixelLoop_spec src [] (fun _ _ => none)
    (fun y x dst => scalePixel src (w : Int) (h : Int) rowSize (nw : Int) (nh : Int)
      (nrs : Int) y x dst)
    nw nh nrs (by omega) (by simp [hzero])
    (by intro y x so _ _ hso; simp at hso)
    (by intro y x dst hy hx _; omega)
  have hd : d' = [] := List.length_eq_zero.mp (by simpa using hlen')
  subst hd
  refine ⟨?_, ?_, ?_⟩
  · unfold scaleImage
    simp only [e1, e2, e4, Int.toNat_ofNat, rowSizeOf_natCast, hnrs]
    rw [hrun]
  · unfold fitsInt32
    omega
  · have htn : ((nrs : Int) * (nh : Int)) = 0 := by exact_mod_cast hzero
    rw [htn]
    decide

theorem scaleImage_degenerate_witness :
    scaleImage [1, 2, 3, 0, 4, 5, 6, 0] 1 2 4 30 =
        .ok ([], Int.tdiv (1 * 30) 100, Int.tdiv (2 * 30) 100,
          rowSizeOf (Int.tdiv (1 * 30) 100)) ∧
      fitsInt32 (Int.tdiv (1 * 30) 100 * 3 + 3) ∧
      fitsInt32 (rowSizeOf (Int.tdiv (1 * 30) 100) * Int.tdiv (2 * 30) 100) :=
  scaleImage_degenerate [1, 2, 3, 0, 4, 5, 6, 0] 1 2 4 30 (by decide) (by decide)
    (by decide) (by decide) (by decide) (by decide)

theorem length_fileHeader_bytes (fh : BMPFileHeader) : fh.bytes.length = 14 := rfl

theorem length_infoHeader_bytes (ih : BMPInfoHeader) : ih.bytes.length = 40 := rfl

theorem read_of_le (content : List Byte) (pos : Nat) (buf : List Byte)
    (h : pos + buf.length ≤ content.length) :
    IfStream.read ⟨content, pos, false⟩ buf =
      (⟨content, pos + buf.length, false⟩, (content.drop pos).take buf.length) := by
  have hl : ((content.drop pos).take buf.length).length = buf.length := by
    rw [List.length_take, List.length_drop]; omega
  unfold IfStream.read
  simp only [Bool.false_eq_true, if_false, hl, lt_self_iff_false, decide_False,
    List.drop_length, List.append_nil]

theorem read_getElem? (content : List Byte) (pos : Nat) (buf : List Byte) (i : Nat) :
    ((IfStream.read ⟨content, pos, false⟩ buf).2)[i]? =
      if i < buf.length ∧ pos + i < content.length then content[pos + i]? else buf[i]? := by
  have hl : ((content.drop pos).take buf.length).length
      = min buf.length (content.length - pos) := by
    rw [List.length_take, List.length_drop]
  unfold IfStream.read
  simp only [Bool.false_eq_true, if_false, List.getElem?_append, hl, List.getElem?_take,
    List.getElem?_drop]
  by_cases hc : i < buf.length ∧ pos + i < content.length
  · rw [if_pos hc, if_pos (by omega), if_pos hc.1]
  · rw [if_neg hc, if_neg (by omega)]
    by_cases hb : i < buf.length
    · congr 1; omega
    · rw [List.getElem?_eq_none (by omega), List.getElem?_eq_none (by omega)]

theorem read_length (content : List Byte) (pos : Nat) (buf : List Byte) :
    ((IfStream.read ⟨content, pos, false⟩ buf).2).length = buf.length := by
  unfold IfStream.read
  simp only [Bool.false_eq_true, if_false, List.length_append, List.length_take,
    List.length_drop]
  omega

theorem getD_take (b : List Byte) (n i : Nat) (h : i < n) :
    (b.take n).getD i 0 = b.getD i 0 := by
  rw [List.getD_eq_getElem?_getD, List.getD_eq_getElem?_getD, List.getElem?_take_of_lt h]

theorem getD_drop (b : List Byte) (k i : Nat) : (b.drop k).getD i 0 = b.getD (k + i) 0 := by
  rw [List.getD_eq_getElem?_getD, List.getD_eq_getElem?_getD, List.getElem?_drop]

theorem rd16_take (b : List Byte) (n i : Nat) (h : i + 2 ≤ n) :
    rd16 (b.take n) i = rd16 b i := by
  unfold rd16
  rw [getD_take b n i (by omega), getD_take b n (i + 1) (by omega)]

theorem rd32_take (b : List Byte) (n i : Nat) (h : i + 4 ≤ n) :
    rd32 (b.take n) i = rd32 b i := by
  unfold rd32
  rw [getD_take b n i (by omega), getD_take b n (i + 1) (by omega),
    getD_take b n (i + 2) (by omega), getD_take b n (i + 3) (by omega)]

theorem rd16_drop (b : List Byte) (k i : Nat) : rd16 (b.drop k) i = rd16 b (k + i) := by
  unfold rd16
  rw [getD_drop, getD_drop]
  rfl

theorem rd32_drop (b : List Byte) (k i : Nat) : rd32 (b.drop k) i = rd32 b (k + i) := by
  unfold rd32
  rw [getD_drop, getD_drop, getD_drop, getD_drop]
  rfl

theorem parseFileHeader_bytes (fh : BMPFileHeader) :
    parseFileHeader fh.bytes =
      { fh with bfSize := fh.bfSize % 4294967296, bfReserved1 := fh.bfReserved1 % 65536,
                bfReserved2 := fh.bfReserved2 % 65536,
                bfOffBits := fh.bfOffBits % 4294967296 } := by
  simp only [parseFileHeader, BMPFileHeader.bytes, le32, le16, rd32, rd16, byteOf,
    List.cons_append, List.nil_append, List.getD_cons_zero, List.getD_cons_succ,
    BMPFileHeader.mk.injEq, true_and]
  refine ⟨?_, ?_, ?_, ?_⟩ <;> omega

theorem parseInfoHeader_bytes (ih : BMPInfoHeader) :
    parseInfoHeader ih.bytes =
      { biSize := ih.biSize % 4294967296, biWidth := ofU32 (toU32 ih.biWidth),
        biHeight := ofU32 (toU32 ih.biHeight), biPlanes := ih.biPlanes % 65536,
        biBitCount := ih.biBitCount % 65536, biCompression := ih.biCompression % 4294967296,
        biSizeImage := ih.biSizeImage % 4294967296,
        biXPelsPerMeter := ofU32 (toU32 ih.biXPelsPerMeter),
        biYPelsPerMeter := ofU32 (toU32 ih.biYPelsPerMeter),
        biClrUsed := ih.biClrUsed % 4294967296,
        biClrImportant := ih.biClrImportant % 4294967296 } := by
  have key : ∀ n : Nat, n % 256 + 256 * (n / 256 % 256) + 65536 * (n / 65536 % 256)
      + 16777216 * (n / 16777216 % 256) = n % 4294967296 := fun n => by omega
  simp only [parseInfoHeader, BMPInfoHeader.bytes, le32, le16, rd32, rd16, byteOf,
    List.cons_append, List.nil_append, List.getD_cons_zero, List.getD_cons_succ,
    BMPInfoHeader.mk.injEq, key]
  have hof : ∀ n : Nat, ofU32 (n % 4294967296) = ofU32 n := fun n => by
    unfold ofU32; rw [Nat.mod_mod]
  refine ⟨trivial, hof _, hof _, ?_, ?_, trivial, trivial, hof _, hof _, trivial, trivial⟩ <;> omega

theorem ofU32_toU32 (i : Int) (h : -2147483648 ≤ i ∧ i < 2147483648) :
    ofU32 (toU32 i) = i := by
  unfold ofU32 toU32
  split_ifs <;> omega

theorem parseFileHeader_bytes_wf (fh : BMPFileHeader) (h : fh.wf) :
    parseFileHeader fh.bytes = fh := by
  obtain ⟨h1, h2, h3, h4⟩ := h
  rw [parseFileHeader_bytes, Nat.mod_eq_of_lt h1, Nat.mod_eq_of_lt h2, Nat.mod_eq_of_lt h3,
    Nat.mod_eq_of_lt h4]

theorem parseInfoHeader_bytes_wf (ih : BMPInfoHeader) (h : ih.wf) :
    parseInfoHeader ih.bytes = ih := by
  obtain ⟨h1, h2, h3, h4, h5, h6, h7, h8, h9, h10, h11⟩ := h
  rw [parseInfoHeader_bytes, Nat.mod_eq_of_lt h1, ofU32_toU32 _ h2, ofU32_toU32 _ h3,
    Nat.mod_eq_of_lt h4, Nat.mod_eq_of_lt h5, Nat.mod_eq_of_lt h6, Nat.mod_eq_of_lt h7,
    ofU32_toU32 _ h8, ofU32_toU32 _ h9, Nat.mod_eq_of_lt h10, Nat.mod_eq_of_lt h11]

theorem loadBMP_eq (content : List Byte) (fh0 : BMPFileHeader) (ih0 : BMPInfoHeader)
    (data0 : List Byte) (hlen : 54 ≤ content.length) :
    loadBMP (some content) fh0 ih0 data0 =
      if validHeaders (fileHeaderOf content) (infoHeaderOf content)
      then readPixels ⟨content, 54, false⟩ (fileHeaderOf content) (infoHeaderOf content) data0
      else .error .unsupportedFormat := by
  have h1 : IfStream.read ⟨content, 0, false⟩ fh0.bytes
      = (⟨content, 14, false⟩, content.take 14) := by
    rw [read_of_le _ _ _ (by rw [length_fileHeader_bytes]; omega), length_fileHeader_bytes]
    rfl
  have h2 : IfStream.read ⟨content, 14, false⟩ ih0.bytes
      = (⟨content, 54, false⟩, (content.drop 14).take 40) := by
    rw [read_of_le _ _ _ (by rw [length_infoHeader_bytes]; omega), length_infoHeader_bytes]
  unfold loadBMP
  simp only [h1, h2]
  unfold validHeaders fileHeaderOf infoHeaderOf
  by_cases hv : (parseFileHeader (content.take 14)).bfType0 = 66 ∧
      (parseFileHeader (content.take 14)).bfType1 = 77 ∧
      (parseInfoHeader ((content.drop 14).take 40)).biBitCount = 24 ∧
      (parseInfoHeader ((content.drop 14).take 40)).biCompression = 0
  · rw [if_pos hv, if_neg (by tauto)]
  · rw [if_neg hv, if_pos (by tauto)]

theorem rowSizeOf_nonneg (w : Int) (h : 0 ≤ w) : 0 ≤ rowSizeOf w := by
  unfold rowSizeOf andNot3
  omega

theorem resize_getElem? (data0 : List Byte) (n i : Nat) (hi : i < n) :
    (data0.take n ++ List.replicate (n - data0.length) (0 : Byte))[i]? =
      if i < data0.length then data0[i]? else some 0 := by
  rw [List.getElem?_append, List.length_take, List.getElem?_take, List.getElem?_replicate]
  by_cases hc : i < data0.length
  · rw [if_pos (by omega), if_pos hi, if_pos hc]
  · rw [if_neg (by omega), if_neg hc, if_pos (by omega)]

theorem readPixels_ok (content : List Byte) (pos : Nat) (fh : BMPFileHeader)
    (ih : BMPInfoHeader) (data0 : List Byte)
    (hn : 0 ≤ rowSizeOf ih.biWidth * (Int.natAbs ih.biHeight : Int)) :
    ∃ data, readPixels ⟨content, pos, false⟩ fh ih data0 =
        .ok (fh, ih, data, rowSizeOf ih.biWidth) ∧
      (data.length : Int) = rowSizeOf ih.biWidth * (Int.natAbs ih.biHeight : Int) ∧
      ∀ i, i < data.length → data[i]? =
        if fh.bfOffBits + i < content.length then content[fh.bfOffBits + i]?
        else if i < data0.length then data0[i]? else some 0 := by
  generalize hN : rowSizeOf ih.biWidth * (Int.natAbs ih.biHeight : Int) = N at hn
  obtain ⟨n, rfl⟩ := Int.eq_ofNat_of_zero_le hn
  have hres : resize data0 (n : Int)
      = .ok (data0.take n ++ List.replicate (n - data0.length) 0) := by
    unfold resize
    rw [if_neg (by omega), Int.toNat_ofNat]
  have hrl : (data0.take n ++ List.replicate (n - data0.length) (0 : Byte)).length = n := by
    rw [List.length_append, List.length_take, List.length_replicate]; omega
  refine ⟨(IfStream.read ⟨content, fh.bfOffBits, false⟩
    (data0.take n ++ List.replicate (n - data0.length) 0)).2, ?_, ?_, ?_⟩
  · unfold readPixels
    simp only [hN, hres]
    rfl
  · rw [read_length, hrl]
  · intro i hi
    rw [read_length, hrl] at hi
    rw [read_getElem?, hrl, resize_getElem? _ _ _ hi]
    by_cases hc : fh.bfOffBits + i < content.length
    · rw [if_pos ⟨hi, hc⟩, if_pos hc]
    · rw [if_neg (by tauto), if_neg hc]

/-- C6: for a stream of at least 54 bytes, `loadBMP` ends with the format error exactly
when byte 0 is not `'B'`, or byte 1 is not `'M'`, or the 16-bit field at offset 28 is not
24, or the 32-bit field at offset 30 is not 0; so a stream passing the three checks is
never rejected with the format error. -/
theorem loadBMP_format_error_iff (content : List Byte) (fh0 : BMPFileHeader)
    (ih0 : BMPInfoHeader) (data0 : List Byte) (hlen : 54 ≤ content.length) :
    loadBMP (some content) fh0 ih0 data0 = .error .unsupportedFormat ↔
      (content.getD 0 0 ≠ 66 ∨ content.getD 1 0 ≠ 77 ∨ rd16 content 28 ≠ 24 ∨
        rd32 content 30 ≠ 0) := by
  have e0 : (fileHeaderOf content).bfType0 = content.getD 0 0 := getD_take _ _ _ (by decide)
  have e1 : (fileHeaderOf content).bfType1 = content.getD 1 0 := getD_take _ _ _ (by decide)
  have e2 : (infoHeaderOf content).biBitCount = rd16 content 28 := by
    show rd16 ((content.drop 14).take 40) 14 = _
    rw [rd16_take _ _ _ (by decide), rd16_drop]
  have e3 : (infoHeaderOf content).biCompression = rd32 content 30 := by
    show rd32 ((content.drop 14).take 40) 16 = _
    rw [rd32_take _ _ _ (by decide), rd32_drop]
  have hiff : validHeaders (fileHeaderOf content) (infoHeaderOf content) ↔
      (content.getD 0 0 = 66 ∧ content.getD 1 0 = 77 ∧ rd16 content 28 = 24 ∧
        rd32 content 30 = 0) := by
    unfold validHeaders
    rw [e0, e1, e2, e3]
  rw [loadBMP_eq _ _ _ _ hlen]
  by_cases hv : validHeaders (fileHeaderOf content) (infoHeaderOf content)
  · rw [if_pos hv]
    have hv' := hiff.mp hv
    constructor
    · intro h
      unfold readPixels at h
      simp only [] at h
      split at h
      · rename_i e he
        cases h
        unfold resize at he
        split at he <;> cases he
      · cases h
    · intro h
      tauto
  · rw [if_neg hv]
    have hv' : ¬ (content.getD 0 0 = 66 ∧ content.getD 1 0 = 77 ∧ rd16 content 28 = 24 ∧
        rd32 content 30 = 0) := fun h => hv (hiff.mpr h)
    constructor
    · intro _
      tauto
    · intro _
      rfl

theorem loadBMP_format_error_iff_witness :
    loadBMP (some sampleStream) sampleFileHeader sampleInfoHeader [] = .error .unsupportedFormat ↔
      (sampleStream.getD 0 0 ≠ 66 ∨ sampleStream.getD 1 0 ≠ 77 ∨ rd16 sampleStream 28 ≠ 24 ∨
        rd32 sampleStream 30 ≠ 0) :=
  loadBMP_format_error_iff sampleStream sampleFileHeader sampleInfoHeader [] (by decide)

theorem loadBMP_ok (content : List Byte) (fh0 : BMPFileHeader) (ih0 : BMPInfoHeader)
    (data0 : List Byte) (hlen : 54 ≤ content.length)
    (hv : validHeaders (fileHeaderOf content) (infoHeaderOf content))
    (hw : 0 < (infoHeaderOf content).biWidth) :
    ∃ data, loadBMP (some content) fh0 ih0 data0 =
        .ok (fileHeaderOf content, infoHeaderOf content, data,
          rowSizeOf (infoHeaderOf content).biWidth) ∧
      (data.length : Int) = rowSizeOf (infoHeaderOf content).biWidth *
        (Int.natAbs (infoHeaderOf content).biHeight : Int) ∧
      ∀ i, i < data.length → data[i]? =
        if (fileHeaderOf content).bfOffBits + i < content.length
        then content[(fileHeaderOf content).bfOffBits + i]?
        else if i < data0.length then data0[i]? else some 0 := by
  rw [loadBMP_eq _ _ _ _ hlen, if_pos hv]
  exact readPixels_ok content 54 _ _ data0
    (Int.mul_nonneg (rowSizeOf_nonneg _ (Int.le_of_lt hw)) (Int.natCast_nonneg _))

/-- C8 (as stated, refuted): `wideStream` has 54 bytes, headers that pass the check of
line 43, `biWidth = 715827882 > 0`, `biHeight = 0` and `bfOffBits = 54`, so it is as long
as `bfOffBits + rowStride * |biHeight|`. The claim's `rowSize = (biWidth*3+3) & ~3` is
`2147483648` there, and `rowSize` is an `int`: line 47 forms `biWidth*3 + 3 = 2147483649`
in 32-bit arithmetic, which overflows, and no `int` result can be the claimed value. -/
theorem loadBMP_stride_overflows :
    54 ≤ wideStream.length ∧
      validHeaders (fileHeaderOf wideStream) (infoHeaderOf wideStream) ∧
      0 < (infoHeaderOf wideStream).biWidth ∧
      ((fileHeaderOf wideStream).bfOffBits : Int) +
        rowSizeOf (infoHeaderOf wideStream).biWidth *
          (Int.natAbs (infoHeaderOf wideStream).biHeight : Int) ≤ (wideStream.length : Int) ∧
      (infoHeaderOf wideStream).biWidth = 715827882 ∧
      (infoHeaderOf wideStream).biHeight = 0 ∧
      fitsInt32 ((infoHeaderOf wideStream).biWidth * 3) ∧
      (infoHeaderOf wideStream).biWidth * 3 + 3 = 2147483649 ∧
      ¬ fitsInt32 ((infoHeaderOf wideStream).biWidth * 3 + 3) ∧
      rowSizeOf (infoHeaderOf wideStream).biWidth = 2147483648 ∧
      ¬ fitsInt32 (rowSizeOf (infoHeaderOf wideStream).biWidth) := by
  decide

/-- C8 (amended): for a stream of at least 54 bytes whose headers pass the check of line
43, with `biWidth > 0`, with `biWidth*3+3`, `|biHeight|` and `rowSize * |biHeight|`
within `int` (lines 46-48 do not overflow), and at least
`bfOffBits + rowSize * |biHeight|` bytes, `loadBMP` returns
`rowSize = (biWidth*3+3) & ~3` and a buffer of exactly `rowSize * |biHeight|` bytes whose
byte `i` is the stream's byte `bfOffBits + i`, whatever the sign of `biHeight`; the
returned headers are the little-endian fields of the first 54 bytes. -/
theorem loadBMP_payload (content : List Byte) (fh0 : BMPFileHeader) (ih0 : BMPInfoHeader)
    (data0 : List Byte) (hlen : 54 ≤ content.length)
    (hv : validHeaders (fileHeaderOf content) (infoHeaderOf content))
    (hw : 0 < (infoHeaderOf content).biWidth)
    (_hfit : loadFits (infoHeaderOf content))
    (hfull : ((fileHeaderOf content).bfOffBits : Int) +
      rowSizeOf (infoHeaderOf content).biWidth *
        (Int.natAbs (infoHeaderOf content).biHeight : Int) ≤ (content.length : Int)) :
    ∃ data, loadBMP (some content) fh0 ih0 data0 =
        .ok (fileHeaderOf content, infoHeaderOf content, data,
          rowSizeOf (infoHeaderOf content).biWidth) ∧
      (data.length : Int) = rowSizeOf (infoHeaderOf content).biWidth *
        (Int.natAbs (infoHeaderOf content).biHeight : Int) ∧
      ∀ i, i < data.length → ∃ b, data[i]? = some b ∧
        content[(fileHeaderOf content).bfOffBits + i]? = some b := by
  obtain ⟨data, hrun, hl, hP⟩ := loadBMP_ok content fh0 ih0 data0 hlen hv hw
  refine ⟨data, hrun, hl, fun i hi => ?_⟩
  have hin : (fileHeaderOf content).bfOffBits + i < content.length := by omega
  refine ⟨content[(fileHeaderOf content).bfOffBits + i], ?_, List.getElem?_eq_getElem hin⟩
  rw [hP i hi, if_pos hin, List.getElem?_eq_getElem hin]

theorem loadBMP_payload_witness :
    ∃ data, loadBMP (some sampleStream) sampleFileHeader sampleInfoHeader [9, 9] =
        .ok (fileHeaderOf sampleStream, infoHeaderOf sampleStream, data,
          rowSizeOf (infoHeaderOf sampleStream).biWidth) ∧
      (data.length : Int) = rowSizeOf (infoHeaderOf sampleStream).biWidth *
        (Int.natAbs (infoHeaderOf sampleStream).biHeight : Int) ∧
      ∀ i, i < data.length → ∃ b, data[i]? = some b ∧
        sampleStream[(fileHeaderOf sampleStream).bfOffBits + i]? = some b :=
  loadBMP_payload sampleStream sampleFileHeader sampleInfoHeader [9, 9] (by decide)
    (by decide) (by decide) (by decide) (by decide)

/-- C7 (as stated, refuted): `truncatedStream` has valid headers, `biWidth = 1`,
`biHeight = 1`, and 56 bytes where `bfOffBits + rowSize * |biHeight| = 58` are declared;
`loadBMP` does not fail on it, it returns a four-byte pixel buffer whose last two bytes
are the zeros left by `resize`. -/
theorem loadBMP_truncated_returns :
    validHeaders (fileHeaderOf truncatedStream) (infoHeaderOf truncatedStream) ∧
      (infoHeaderOf truncatedStream).biWidth = 1 ∧
      (infoHeaderOf truncatedStream).biHeight = 1 ∧
      (fileHeaderOf truncatedStream).bfOffBits = 54 ∧
      truncatedStream.length = 56 ∧
      loadBMP (some truncatedStream) sampleFileHeader sampleInfoHeader [] =
        .ok (fileHeaderOf truncatedStream, infoHeaderOf truncatedStream, [1, 2, 0, 0], 4) := by
  decide

/-- C7 (amended): for a stream of at least 54 bytes whose headers pass the check of
line 43, with `biWidth > 0`, `biHeight ≠ 0`, with `biWidth*3+3`, `|biHeight|` and
`rowSize * |biHeight|` within `int` (lines 46-48 do not overflow), and fewer than
`bfOffBits + rowSize * |biHeight|` bytes, `loadBMP` does not fail: it returns the parsed
headers, `rowSize`, and a buffer of the declared `rowSize * |biHeight|` bytes in which
byte `i` is the stream's byte `bfOffBits + i` where the stream has one and otherwise the
byte the resized buffer held (the caller's byte `i`, or zero past the caller's length). -/
theorem loadBMP_truncated (content : List Byte) (fh0 : BMPFileHeader) (ih0 : BMPInfoHeader)
    (data0 : List Byte) (hlen : 54 ≤ content.length)
    (hv : validHeaders (fileHeaderOf content) (infoHeaderOf content))
    (hw : 0 < (infoHeaderOf content).biWidth)
    (_hh : (infoHeaderOf content).biHeight ≠ 0)
    (_hfit : loadFits (infoHeaderOf content))
    (_hshort : (content.length : Int) < ((fileHeaderOf content).bfOffBits : Int) +
      rowSizeOf (infoHeaderOf content).biWidth *
        (Int.natAbs (infoHeaderOf content).biHeight : Int)) :
    ∃ data, loadBMP (some content) fh0 ih0 data0 =
        .ok (fileHeaderOf content, infoHeaderOf content, data,
          rowSizeOf (infoHeaderOf content).biWidth) ∧
      (data.length : Int) = rowSizeOf (infoHeaderOf content).biWidth *
        (Int.natAbs (infoHeaderOf content).biHeight : Int) ∧
      ∀ i, i < data.length → data[i]? =
        if (fileHeaderOf content).bfOffBits + i < content.length
        then content[(fileHeaderOf content).bfOffBits + i]?
        else if i < data0.length then data0[i]? else some 0 :=
  loadBMP_ok content fh0 ih0 data0 hlen hv hw

theorem loadBMP_truncated_witness :
    ∃ data, loadBMP (some truncatedStream) sampleFileHeader sampleInfoHeader [] =
        .ok (fileHeaderOf truncatedStream, infoHeaderOf truncatedStream, data,
          rowSizeOf (infoHeaderOf truncatedStream).biWidth) ∧
      (data.length : Int) = rowSizeOf (infoHeaderOf truncatedStream).biWidth *
        (Int.natAbs (infoHeaderOf truncatedStream).biHeight : Int) ∧
      ∀ i, i < data.length → data[i]? =
        if (fileHeaderOf truncatedStream).bfOffBits + i < truncatedStream.length
        then truncatedStream[(fileHeaderOf truncatedStream).bfOffBits + i]?
        else if i < ([] : List Byte).length then ([] : List Byte)[i]? else some 0 :=
  loadBMP_truncated truncatedStream sampleFileHeader sampleInfoHeader [] (by decide)
    (by decide) (by decide) (by decide) (by decide) (by decide)

/-- C9 (as stated, refuted): with `bfOffBits = 4294967295` and a one-byte buffer the
emitted `bfSize` field is 0, not `bfOffBits + 1`: the field is a `uint32_t`. -/
theorem saveBMP_bfSize_wraps :
    farOffsetHeader.wf ∧ sampleInfoHeader.wf ∧
      ∃ out, saveBMP true farOffsetHeader sampleInfoHeader [7] 4 = .ok out ∧
        (fileHeaderOf out).bfSize = 0 ∧
        (fileHeaderOf out).bfSize ≠ farOffsetHeader.bfOffBits + ([7] : List Byte).length := by
  refine ⟨by decide, by decide, _, rfl, by decide, by decide⟩

theorem saveBMP_emits (fh : BMPFileHeader) (ih : BMPInfoHeader) (data : List Byte)
    (rowSize : Int) (hfh : fh.wf) (hih : ih.wf) :
    ∃ out, saveBMP true fh ih data rowSize = .ok out ∧
      out.length = 54 + data.length ∧
      (out.take 14).length = 14 ∧ ((out.drop 14).take 40).length = 40 ∧
      out.drop 54 = data ∧
      fileHeaderOf out =
        { fh with bfSize := (fh.bfOffBits + data.length) % 4294967296 } ∧
      infoHeaderOf out = { ih with biSizeImage := data.length % 4294967296 } := by
  have hfh' : ({ fh with bfSize := (fh.bfOffBits + data.length % 4294967296) % 4294967296 }
      : BMPFileHeader).wf := by
    obtain ⟨h1, h2, h3, h4⟩ := hfh
    exact ⟨Nat.mod_lt _ (by decide), h2, h3, h4⟩
  have hih' : ({ ih with biSizeImage := data.length % 4294967296 } : BMPInfoHeader).wf := by
    obtain ⟨h1, h2, h3, h4, h5, h6, h7, h8, h9, h10, h11⟩ := hih
    exact ⟨h1, h2, h3, h4, h5, h6, Nat.mod_lt _ (by decide), h8, h9, h10, h11⟩
  have hmod : (fh.bfOffBits + data.length % 4294967296) % 4294967296
      = (fh.bfOffBits + data.length) % 4294967296 := by omega
  refine ⟨_, rfl, ?_, ?_, ?_, ?_, ?_, ?_⟩
  · simp only [List.length_append, length_fileHeader_bytes, length_infoHeader_bytes]
  · simp only [List.length_take, List.length_append, length_fileHeader_bytes,
      length_infoHeader_bytes]
    omega
  · simp only [List.length_take, List.length_drop, List.length_append,
      length_fileHeader_bytes, length_infoHeader_bytes]
    omega
  · rw [List.drop_left' (by
      simp only [List.length_append, length_fileHeader_bytes, length_infoHeader_bytes])]
  · unfold fileHeaderOf
    rw [List.append_assoc, List.take_left' (length_fileHeader_bytes _),
      parseFileHeader_bytes_wf _ hfh', hmod]
  · unfold infoHeaderOf
    rw [List.append_assoc, List.drop_left' (length_fileHeader_bytes _),
      List.take_left' (length_infoHeader_bytes _), parseInfoHeader_bytes_wf _ hih']

/-- C9 (amended): for well-formed headers and any buffer, `saveBMP` emits exactly the
14-byte file header, then the 40-byte info header, then the buffer unchanged (54 + buffer
length bytes in all); the emitted `biSizeImage` is the buffer length modulo `2^32`, the
emitted `bfSize` is `bfOffBits + buffer length` modulo `2^32`, and every other header
field is emitted with the value it was given. -/
theorem saveBMP_layout (fh : BMPFileHeader) (ih : BMPInfoHeader) (data : List Byte)
    (rowSize : Int) (hfh : fh.wf) (hih : ih.wf) :
    ∃ out, saveBMP true fh ih data rowSize = .ok out ∧
      out.length = 54 + data.length ∧
      (out.take 14).length = 14 ∧ ((out.drop 14).take 40).length = 40 ∧
      out.drop 54 = data ∧
      fileHeaderOf out =
        { fh with bfSize := (fh.bfOffBits + data.length) % 4294967296 } ∧
      infoHeaderOf out = { ih with biSizeImage := data.length % 4294967296 } :=
  saveBMP_emits fh ih data rowSize hfh hih

theorem saveBMP_layout_witness :
    ∃ out, saveBMP true sampleFileHeader sampleInfoHeader [1, 2, 3, 0] 4 = .ok out ∧
      out.length = 54 + ([1, 2, 3, 0] : List Byte).length ∧
      (out.take 14).length = 14 ∧ ((out.drop 14).take 40).length = 40 ∧
      out.drop 54 = [1, 2, 3, 0] ∧
      fileHeaderOf out =
        { sampleFileHeader with
          bfSize := (sampleFileHeader.bfOffBits + ([1, 2, 3, 0] : List Byte).length)
            % 4294967296 } ∧
      infoHeaderOf out =
        { sampleInfoHeader with
          biSizeImage := ([1, 2, 3, 0] : List Byte).length % 4294967296 } :=
  saveBMP_layout sampleFileHeader sampleInfoHeader [1, 2, 3, 0] 4 (by decide) (by decide)

/-- C4 (the code at a failing input): a well-formed header pair that passes the check of
line 43 and declares the pixel data at offset 138, with a one-row buffer `[1, 2, 3, 0]`.
`saveBMP` writes the buffer at offset 54, `loadBMP` reads from offset 138 of the 58-byte
file, and the decoded buffer is four zero bytes, not the buffer that was encoded. -/
theorem roundTrip_offset_138 :
    v5FileHeader.wf ∧ v5InfoHeader.wf ∧ validHeaders v5FileHeader v5InfoHeader ∧
      (([1, 2, 3, 0] : List Byte).length : Int)
        = rowSizeOf v5InfoHeader.biWidth * (Int.natAbs v5InfoHeader.biHeight : Int) ∧
      (saveBMP true v5FileHeader v5InfoHeader [1, 2, 3, 0] 4 >>= fun out =>
        loadBMP (some out) sampleFileHeader sampleInfoHeader []) =
        .ok (v5FileHeader, v5InfoHeader, [0, 0, 0, 0], 4) := by
  decide

/-- Encoding then decoding where the header declares the pixel data at offset 54, the
place `saveBMP` writes it: decoding the encoded file returns the header with the two
size fields recomputed and the buffer itself. -/
theorem roundTrip_offset_54 (fh : BMPFileHeader) (ih : BMPInfoHeader) (data : List Byte)
    (fh0 : BMPFileHeader) (ih0 : BMPInfoHeader) (data0 : List Byte)
    (hfh : fh.wf) (hih : ih.wf) (hv : validHeaders fh ih) (hw : 0 < ih.biWidth)
    (hoff : fh.bfOffBits = 54)
    (hlen : (data.length : Int) = rowSizeOf ih.biWidth * (Int.natAbs ih.biHeight : Int)) :
    (saveBMP true fh ih data (rowSizeOf ih.biWidth) >>= fun out =>
      loadBMP (some out) fh0 ih0 data0) =
      .ok ({ fh with bfSize := (fh.bfOffBits + data.length) % 4294967296 },
        { ih with biSizeImage := data.length % 4294967296 }, data, rowSizeOf ih.biWidth) := by
  obtain ⟨out, hout, hl, -, -, hdrop, hF, hI⟩ :=
    saveBMP_emits fh ih data (rowSizeOf ih.biWidth) hfh hih
  rw [hout]
  show loadBMP (some out) fh0 ih0 data0 = _
  have hv' : validHeaders (fileHeaderOf out) (infoHeaderOf out) := by
    rw [hF, hI]; exact hv
  have hw' : 0 < (infoHeaderOf out).biWidth := by rw [hI]; exact hw
  obtain ⟨d, hrun, hdl, hP⟩ := loadBMP_ok out fh0 ih0 data0 (by omega) hv' hw'
  rw [hrun, hF, hI]
  have hdl' : d.length = data.length := by
    rw [hI] at hdl
    have : (d.length : Int) = (data.length : Int) := by rw [hdl, hlen]
    exact_mod_cast this
  have hd : d = data := by
    apply List.ext_getElem?
    intro i
    by_cases hi : i < d.length
    · rw [hP i hi, hF]
      simp only [hoff]
      rw [if_pos (by omega), ← hdrop, List.getElem?_drop]
    · rw [List.getElem?_eq_none (by omega), List.getElem?_eq_none (by omega)]
  rw [hd]

theorem truncToInt_nonneg (q : ℚ) (h : 0 ≤ q) : 0 ≤ truncToInt q := by
  unfold truncToInt
  rw [if_pos h]
  exact Int.floor_nonneg.mpr h

theorem rotateImage_spec (src : List Byte) (w h rs : Nat) (cosA sinA : ℚ) (nw nh : Nat)
    (hrs : 3 * w ≤ rs) (hlen : src.length = rs * h)
    (hnw : rotNewWidth (w : Int) (h : Int) cosA sinA = (nw : Int))
    (hnh : rotNewHeight (w : Int) (h : Int) cosA sinA = (nh : Int)) :
    ∃ dst, rotateImage src (w : Int) (h : Int) (rs : Int) cosA sinA =
        .ok (dst, (nw : Int), (nh : Int), (((nw * 3 + 3) / 4 * 4 : Nat) : Int)) ∧
      dst.length = ((nw * 3 + 3) / 4 * 4) * nh ∧
      ∀ y r, r < (nw * 3 + 3) / 4 * 4 →
        dst[y * ((nw * 3 + 3) / 4 * 4) + r]? =
          if y < nh ∧ r < 3 * nw
          then pixelByte src (List.replicate (((nw * 3 + 3) / 4 * 4) * nh) (255 : Byte))
            (rotSel (w : Int) (h : Int) (rs : Int) (nw : Int) (nh : Int) cosA sinA)
            ((nw * 3 + 3) / 4 * 4) y r
          else (List.replicate (((nw * 3 + 3) / 4 * 4) * nh)
            (255 : Byte))[y * ((nw * 3 + 3) / 4 * 4) + r]? := by
  generalize hnrs : (nw * 3 + 3) / 4 * 4 = nrs
  have e3 : rowSizeOf (nw : Int) = (nrs : Int) := by
    rw [rowSizeOf_natCast, hnrs]
  have e4 : assign ((nrs : Int) * (nh : Int)) 255
      = .ok (List.replicate (nrs * nh) (255 : Byte)) := by
    have hnn : (0 : Int) ≤ (nrs : Int) * (nh : Int) := by positivity
    have htn : ((nrs : Int) * (nh : Int)).toNat = nrs * nh := by
      exact_mod_cast Int.toNat_ofNat (nrs * nh)
    unfold assign
    rw [if_neg (by omega), htn]
  have hcomm : rs * h = h * rs := Nat.mul_comm _ _
  obtain ⟨d', hrun, hlen', hP⟩ := pixelLoop_spec src (List.replicate (nrs * nh) (255 : Byte))
    (rotSel (w : Int) (h : Int) (rs : Int) (nw : Int) (nh : Int) cosA sinA)
    (fun y x dst => rotatePixel src (w : Int) (h : Int) (rs : Int) cosA sinA (nw : Int)
      (nh : Int) (nrs : Int) y x dst)
    nw nh nrs (by omega) (by simp)
    (by
      intro y x so _ _ hso
      unfold rotSel at hso
      simp only [] at hso
      split at hso
      · rename_i hc
        obtain ⟨hx0, hxw, hy0, hyh⟩ := hc
        simp only [Option.some.injEq] at hso
        subst hso
        generalize (rotSource (w : Int) (h : Int) (nw : Int) (nh : Int) cosA sinA y x).1 = ix
          at hx0 hxw
        generalize (rotSource (w : Int) (h : Int) (nw : Int) (nh : Int) cosA sinA y x).2 = iy
          at hy0 hyh
        obtain ⟨a, rfl⟩ := Int.eq_ofNat_of_zero_le hx0
        obtain ⟨b, rfl⟩ := Int.eq_ofNat_of_zero_le hy0
        have hb : b < h := by omega
        have ha : a < w := by omega
        have := mul_add_le_of_lt (c := rs) hb
        have e : ((b : Int) * (rs : Int) + (a : Int) * 3).toNat = b * rs + a * 3 := by
          have : ((b : Int) * (rs : Int) + (a : Int) * 3) = ((b * rs + a * 3 : Nat) : Int) := by
            push_cast; rfl
          rw [this, Int.toNat_ofNat]
        rw [e]
        omega
      · cases hso)
    (by
      intro y x dst _ _ _
      unfold rotatePixel rotSel
      simp only []
      split
      · rename_i hc
        obtain ⟨hx0, -, hy0, -⟩ := hc
        simp only []
        congr 1
        rw [Int.toNat_of_nonneg (by positivity)]
      · rfl)
  refine ⟨d', ?_, by rw [hlen']; simp, hP⟩
  unfold rotateImage
  simp only [hnw, hnh, e3, e4, Int.toNat_ofNat]
  rw [hrun]

theorem truncToInt_natCast (n : Nat) : truncToInt ((n : Int) : ℚ) = (n : Int) := by
  unfold truncToInt
  rw [if_pos (by positivity), Int.floor_intCast]

theorem cround_natCast (n : Nat) : cround (n : ℚ) = (((n : Int) : ℚ)) := by
  unfold cround
  rw [if_pos (by positivity)]
  have h : Int.floor ((n : ℚ) + 1 / 2) = (n : Int) := by
    rw [Int.floor_eq_iff]
    constructor
    · push_cast; linarith
    · push_cast; linarith
  rw [h]

theorem rotNewWidth_zero_angle (w h : Nat) :
    rotNewWidth (w : Int) (h : Int) 1 0 = (w : Int) := by
  unfold rotNewWidth
  have e : abs (((w : Int) : ℚ) * 1) + abs (((h : Int) : ℚ) * 0) = (((w : Int)) : ℚ) := by
    rw [mul_one, mul_zero, abs_zero, add_zero, abs_of_nonneg (by positivity)]
  rw [e, truncToInt_natCast]

theorem rotNewHeight_zero_angle (w h : Nat) :
    rotNewHeight (w : Int) (h : Int) 1 0 = (h : Int) := by
  unfold rotNewHeight
  have e : abs (((w : Int) : ℚ) * 0) + abs (((h : Int) : ℚ) * 1) = (((h : Int)) : ℚ) := by
    rw [mul_one, mul_zero, abs_zero, zero_add, abs_of_nonneg (by positivity)]
  rw [e, truncToInt_natCast]

theorem rotSource_zero_angle (w h : Nat) (y x : Nat) :
    rotSource (w : Int) (h : Int) (w : Int) (h : Int) 1 0 y x = ((x : Int), (y : Int)) := by
  unfold rotSource
  have ex : (1 : ℚ) * ((x : ℚ) - (((w : Int) : ℚ)) / 2) + 0 * ((y : ℚ) - (((h : Int) : ℚ)) / 2)
      + (((w : Int) : ℚ)) / 2 = (x : ℚ) := by ring
  have ey : -(0 : ℚ) * ((x : ℚ) - (((w : Int) : ℚ)) / 2) + 1 * ((y : ℚ) - (((h : Int) : ℚ)) / 2)
      + (((h : Int) : ℚ)) / 2 = (y : ℚ) := by ring
  simp only [ex, ey, cround_natCast, truncToInt_natCast]

/-- C10: for a source with `width > 0`, `height > 0`, `rowSize = (width*3+3) & ~3` and
`rowSize * height` bytes, `rotateImage` at angle 0 (`cosA = 1`, `sinA = 0`) returns
`newWidth = width`, `newHeight = height`, `newRowSize = rowSize`, and for every pixel
`(x, y)` of the image each of the three bytes of the output pixel is the byte of the
input pixel `(x, y)`. -/
theorem rotateImage_zero_angle (src : List Byte) (width height : Int)
    (hw : 0 < width) (hh : 0 < height)
    (hlen : (src.length : Int) = rowSizeOf width * height) :
    ∃ dst, rotateImage src width height (rowSizeOf width) 1 0 =
        .ok (dst, width, height, rowSizeOf width) ∧
      ∀ x y c : Nat, (x : Int) < width → (y : Int) < height → c < 3 →
        ∃ b, dst[((y : Int) * rowSizeOf width + (x : Int) * 3 + (c : Int)).toNat]? = some b ∧
          src[((y : Int) * rowSizeOf width + (x : Int) * 3 + (c : Int)).toNat]? = some b := by
  obtain ⟨w, rfl⟩ := Int.eq_ofNat_of_zero_le (Int.le_of_lt hw)
  obtain ⟨h, rfl⟩ := Int.eq_ofNat_of_zero_le (Int.le_of_lt hh)
  rw [rowSizeOf_natCast] at hlen ⊢
  have hlenN : src.length = ((w * 3 + 3) / 4 * 4) * h := by exact_mod_cast hlen
  obtain ⟨dst, hrun, hl, hP⟩ := rotateImage_spec src w h ((w * 3 + 3) / 4 * 4) 1 0 w h
    (by omega) hlenN (rotNewWidth_zero_angle w h) (rotNewHeight_zero_angle w h)
  generalize hrs : (w * 3 + 3) / 4 * 4 = rs at hlenN hrun hl hP ⊢
  refine ⟨dst, hrun, ?_⟩
  intro x y c hx hy hc
  have hxN : x < w := by omega
  have hyN : y < h := by omega
  have hidx : ((y : Int) * (rs : Int) + (x : Int) * 3 + (c : Int)).toNat
      = y * rs + (x * 3 + c) := by
    have : ((y : Int) * (rs : Int) + (x : Int) * 3 + (c : Int))
        = ((y * rs + (x * 3 + c) : Nat) : Int) := by push_cast; ring
    rw [this, Int.toNat_ofNat]
  have hyrs := mul_add_le_of_lt (c := rs) hyN
  have hcomm : rs * h = h * rs := Nat.mul_comm _ _
  have hin : y * rs + (x * 3 + c) < src.length := by omega
  refine ⟨src[y * rs + (x * 3 + c)], ?_, ?_⟩
  · rw [hidx, hP y (x * 3 + c) (by omega), if_pos (by omega)]
    have e2 : (x * 3 + c) / 3 = x := by omega
    have e3 : (x * 3 + c) % 3 = c := by omega
    have hsel : rotSel (w : Int) (h : Int) (rs : Int) (w : Int) (h : Int) 1 0 y x
        = some (y * rs + x * 3) := by
      unfold rotSel
      simp only [rotSource_zero_angle]
      rw [if_pos (by omega)]
      rfl
    unfold pixelByte
    rw [e2, e3, hsel]
    simp only []
    have e4 : y * rs + x * 3 + c = y * rs + (x * 3 + c) := by omega
    rw [e4, List.getElem?_eq_getElem hin]
  · rw [hidx, List.getElem?_eq_getElem hin]

theorem rotateImage_zero_angle_witness :
    ∃ dst, rotateImage [1, 2, 3, 0] 1 1 (rowSizeOf 1) 1 0 = .ok (dst, 1, 1, rowSizeOf 1) ∧
      ∀ x y c : Nat, (x : Int) < 1 → (y : Int) < 1 → c < 3 →
        ∃ b, dst[((y : Int) * rowSizeOf 1 + (x : Int) * 3 + (c : Int)).toNat]? = some b ∧
          ([1, 2, 3, 0] : List Byte)[((y : Int) * rowSizeOf 1 + (x : Int) * 3
            + (c : Int)).toNat]? = some b :=
  rotateImage_zero_angle [1, 2, 3, 0] 1 1 (by decide) (by decide) (by decide)

theorem toNat_row_add (y rs k : Nat) (i : Int) (h : i = (y : Int) * (rs : Int) + (k : Int)) :
    i.toNat = y * rs + k := by
  have : i = ((y * rs + k : Nat) : Int) := by rw [h]; push_cast; rfl
  rw [this, Int.toNat_ofNat]

/-- C14: for `width ≥ 0`, `height ≥ 0`, `rowSize = (width*3+3) & ~3` and a buffer of
`rowSize * height` bytes, `horizontalMirror` returns a buffer of the same length in
which, for every pixel `(x, y)` and channel `c`, the byte at `y*rowSize + x*3 + c` is the
original byte at `y*rowSize + (width-1-x)*3 + c` (the channel order inside a pixel is
kept), every row-padding byte is unchanged, and the centre column of an odd-width image
is unchanged. -/
theorem horizontalMirror_reverses_rows (data : List Byte) (width height : Int)
    (hw : 0 ≤ width) (hh : 0 ≤ height)
    (hlen : (data.length : Int) = rowSizeOf width * height) :
    ∃ d', horizontalMirror data width height (rowSizeOf width) = .ok d' ∧
      d'.length = data.length ∧
      (∀ x y c : Nat, (x : Int) < width → (y : Int) < height → c < 3 →
        ∃ b, d'[((y : Int) * rowSizeOf width + (x : Int) * 3 + (c : Int)).toNat]? = some b ∧
          data[((y : Int) * rowSizeOf width + (width - 1 - (x : Int)) * 3
            + (c : Int)).toNat]? = some b) ∧
      (∀ y r : Nat, (y : Int) < height → width * 3 ≤ (r : Int) →
        (r : Int) < rowSizeOf width →
        ∃ b, d'[((y : Int) * rowSizeOf width + (r : Int)).toNat]? = some b ∧
          data[((y : Int) * rowSizeOf width + (r : Int)).toNat]? = some b) ∧
      (∀ x y c : Nat, width = 2 * (x : Int) + 1 → (y : Int) < height → c < 3 →
        ∃ b, d'[((y : Int) * rowSizeOf width + (x : Int) * 3 + (c : Int)).toNat]? = some b ∧
          data[((y : Int) * rowSizeOf width + (x : Int) * 3 + (c : Int)).toNat]? = some b) := by
  obtain ⟨w, rfl⟩ := Int.eq_ofNat_of_zero_le hw
  obtain ⟨h, rfl⟩ := Int.eq_ofNat_of_zero_le hh
  rw [rowSizeOf_natCast] at hlen ⊢
  generalize hrs : (w * 3 + 3) / 4 * 4 = rs at hlen ⊢
  have h3 : 3 * w ≤ rs := by omega
  have hlenN : data.length = rs * h := by exact_mod_cast hlen
  have hcomm : rs * h = h * rs := Nat.mul_comm _ _
  obtain ⟨d', hrun, hl, hP⟩ := horizontalMirror_spec data w h rs h3 hlenN
  have hpix : ∀ x y c : Nat, x < w → y < h → c < 3 →
      ∃ b, d'[y * rs + (x * 3 + c)]? = some b ∧
        data[y * rs + ((w - 1 - x) * 3 + c)]? = some b := by
    intro x y c hx hy hc
    have hyrs := mul_add_le_of_lt (c := rs) hy
    have hin : y * rs + ((w - 1 - x) * 3 + c) < data.length := by omega
    refine ⟨data[y * rs + ((w - 1 - x) * 3 + c)], ?_, List.getElem?_eq_getElem hin⟩
    rw [hP y (x * 3 + c) (by omega), if_pos (by omega)]
    have e2 : (x * 3 + c) / 3 = x := by omega
    have e3 : (x * 3 + c) % 3 = c := by omega
    rw [e2, e3, List.getElem?_eq_getElem hin]
  refine ⟨d', hrun, hl, ?_, ?_, ?_⟩
  · intro x y c hx hy hc
    have hxN : x < w := by omega
    have hyN : y < h := by omega
    rw [toNat_row_add y rs (x * 3 + c) _ (by push_cast; ring),
      toNat_row_add y rs ((w - 1 - x) * 3 + c) _ (by
        rw [show ((w : Int) - 1 - (x : Int)) = ((w - 1 - x : Nat) : Int) by omega]
        push_cast; ring)]
    exact hpix x y c hxN hyN hc
  · intro y r hy hr1 hr2
    have hyN : y < h := by omega
    have hrN : r < rs := by omega
    have hyrs := mul_add_le_of_lt (c := rs) hyN
    have hin : y * rs + r < data.length := by omega
    rw [toNat_row_add y rs r _ rfl]
    refine ⟨data[y * rs + r], ?_, List.getElem?_eq_getElem hin⟩
    rw [hP y r hrN, if_neg (by omega), List.getElem?_eq_getElem hin]
  · intro x y c hx hy hc
    have hxN : w = 2 * x + 1 := by omega
    have hyN : y < h := by omega
    rw [toNat_row_add y rs (x * 3 + c) _ (by push_cast; ring)]
    obtain ⟨b, hb1, hb2⟩ := hpix x y c (by omega) hyN hc
    have e : w - 1 - x = x := by omega
    rw [e] at hb2
    exact ⟨b, hb1, hb2⟩

theorem horizontalMirror_reverses_rows_witness :
    ∃ d', horizontalMirror [1, 2, 3, 4, 5, 6, 7, 8, 9, 10, 11, 12] 3 1 (rowSizeOf 3) = .ok d' ∧
      d'.length = ([1, 2, 3, 4, 5, 6, 7, 8, 9, 10, 11, 12] : List Byte).length ∧
      (∀ x y c : Nat, (x : Int) < 3 → (y : Int) < 1 → c < 3 →
        ∃ b, d'[((y : Int) * rowSizeOf 3 + (x : Int) * 3 + (c : Int)).toNat]? = some b ∧
          ([1, 2, 3, 4, 5, 6, 7, 8, 9, 10, 11, 12] : List Byte)[((y : Int) * rowSizeOf 3
            + (3 - 1 - (x : Int)) * 3 + (c : Int)).toNat]? = some b) ∧
      (∀ y r : Nat, (y : Int) < 1 → (3 : Int) * 3 ≤ (r : Int) → (r : Int) < rowSizeOf 3 →
        ∃ b, d'[((y : Int) * rowSizeOf 3 + (r : Int)).toNat]? = some b ∧
          ([1, 2, 3, 4, 5, 6, 7, 8, 9, 10, 11, 12] : List Byte)[((y : Int) * rowSizeOf 3
            + (r : Int)).toNat]? = some b) ∧
      (∀ x y c : Nat, (3 : Int) = 2 * (x : Int) + 1 → (y : Int) < 1 → c < 3 →
        ∃ b, d'[((y : Int) * rowSizeOf 3 + (x : Int) * 3 + (c : Int)).toNat]? = some b ∧
          ([1, 2, 3, 4, 5, 6, 7, 8, 9, 10, 11, 12] : List Byte)[((y : Int) * rowSizeOf 3
            + (x : Int) * 3 + (c : Int)).toNat]? = some b) :=
  horizontalMirror_reverses_rows [1, 2, 3, 4, 5, 6, 7, 8, 9, 10, 11, 12] 3 1 (by decide)
    (by decide) (by decide)

/-- C15: for `height ≥ 0`, `rowSize ≥ 0`, any `width` and a buffer of `rowSize * height`
bytes, `verticalMirror` returns a buffer of the same length in which, for every row `y`
and every offset `i < rowSize` (pixel bytes and padding bytes alike), the byte at
`y*rowSize + i` is the original byte at `(height-1-y)*rowSize + i`; the middle row of an
odd-height image is unchanged. -/
theorem verticalMirror_reverses_rows (data : List Byte) (width height rowSize : Int)
    (hh : 0 ≤ height) (hr : 0 ≤ rowSize)
    (hlen : (data.length : Int) = rowSize * height) :
    ∃ d', verticalMirror data width height rowSize = .ok d' ∧
      d'.length = data.length ∧
      (∀ y i : Nat, (y : Int) < height → (i : Int) < rowSize →
        ∃ b, d'[((y : Int) * rowSize + (i : Int)).toNat]? = some b ∧
          data[((height - 1 - (y : Int)) * rowSize + (i : Int)).toNat]? = some b) ∧
      (∀ y i : Nat, height = 2 * (y : Int) + 1 → (i : Int) < rowSize →
        ∃ b, d'[((y : Int) * rowSize + (i : Int)).toNat]? = some b ∧
          data[((y : Int) * rowSize + (i : Int)).toNat]? = some b) := by
  obtain ⟨h, rfl⟩ := Int.eq_ofNat_of_zero_le hh
  obtain ⟨rs, rfl⟩ := Int.eq_ofNat_of_zero_le hr
  have hlenN : data.length = rs * h := by exact_mod_cast hlen
  have hcomm : rs * h = h * rs := Nat.mul_comm _ _
  obtain ⟨d', hrun, hl, hP⟩ := verticalMirror_spec data width h rs hlenN
  have hrow : ∀ y i : Nat, y < h → i < rs →
      ∃ b, d'[y * rs + i]? = some b ∧ data[(h - 1 - y) * rs + i]? = some b := by
    intro y i hy hi
    have hyrs := mul_add_le_of_lt (c := rs) (show h - 1 - y < h by omega)
    have hin : (h - 1 - y) * rs + i < data.length := by omega
    refine ⟨data[(h - 1 - y) * rs + i], ?_, List.getElem?_eq_getElem hin⟩
    rw [hP y i hi, if_pos hy, List.getElem?_eq_getElem hin]
  refine ⟨d', hrun, hl, ?_, ?_⟩
  · intro y i hy hi
    have hyN : y < h := by omega
    have hiN : i < rs := by omega
    rw [toNat_row_add y rs i _ rfl,
      toNat_row_add (h - 1 - y) rs i _ (by
        rw [show ((h : Int) - 1 - (y : Int)) = ((h - 1 - y : Nat) : Int) by omega])]
    exact hrow y i hyN hiN
  · intro y i hy hi
    have hyN : h = 2 * y + 1 := by omega
    have hiN : i < rs := by omega
    rw [toNat_row_add y rs i _ rfl]
    obtain ⟨b, hb1, hb2⟩ := hrow y i (by omega) hiN
    have e : h - 1 - y = y := by omega
    rw [e] at hb2
    exact ⟨b, hb1, hb2⟩

theorem verticalMirror_reverses_rows_witness :
    ∃ d', verticalMirror [1, 2, 3, 9, 4, 5, 6, 8, 7, 7, 7, 0] 1 3 4 = .ok d' ∧
      d'.length = ([1, 2, 3, 9, 4, 5, 6, 8, 7, 7, 7, 0] : List Byte).length ∧
      (∀ y i : Nat, (y : Int) < 3 → (i : Int) < 4 →
        ∃ b, d'[((y : Int) * 4 + (i : Int)).toNat]? = some b ∧
          ([1, 2, 3, 9, 4, 5, 6, 8, 7, 7, 7, 0] : List Byte)[(((3 : Int) - 1 - (y : Int)) * 4
            + (i : Int)).toNat]? = some b) ∧
      (∀ y i : Nat, (3 : Int) = 2 * (y : Int) + 1 → (i : Int) < 4 →
        ∃ b, d'[((y : Int) * 4 + (i : Int)).toNat]? = some b ∧
          ([1, 2, 3, 9, 4, 5, 6, 8, 7, 7, 7, 0] : List Byte)[((y : Int) * 4
            + (i : Int)).toNat]? = some b) :=
  verticalMirror_reverses_rows [1, 2, 3, 9, 4, 5, 6, 8, 7, 7, 7, 0] 1 3 4 (by decide)
    (by decide) (by decide)

/-- C16: the stride the code computes, `(width*3 + 3) & ~3`, is `ceil(width*3 / 4) * 4`;
it is a multiple of 4, it is at least `width*3` and it is less than `width*3 + 4`. Over
`Int` this holds for every `width`, so in particular for `0 ≤ width` with
`width*3 + 3 < 2^31`. -/
theorem rowSizeOf_formula (width : Int) :
    rowSizeOf width = Int.land (width * 3 + 3) (~~~(3 : Int)) ∧
      rowSizeOf width = Int.ceil (((width * 3 : Int) : ℚ) / 4) * 4 ∧
      (4 : Int) ∣ rowSizeOf width ∧
      width * 3 ≤ rowSizeOf width ∧
      rowSizeOf width < width * 3 + 4 := by
  have hval : rowSizeOf width = (width * 3 + 3) / 4 * 4 := by
    unfold rowSizeOf andNot3
    omega
  have hceil : Int.ceil (((width * 3 : Int) : ℚ) / 4) = (width * 3 + 3) / 4 := by
    rw [Int.ceil_eq_iff]
    have h1 : (width * 3 + 3) / 4 * 4 ≤ width * 3 + 3 := by omega
    have h2 : width * 3 + 3 < (width * 3 + 3) / 4 * 4 + 4 := by omega
    have h1q : (((width * 3 + 3) / 4 : Int) : ℚ) * 4 ≤ ((width * 3 : Int) : ℚ) + 3 := by
      exact_mod_cast h1
    have h2q : ((width * 3 : Int) : ℚ) + 3 < (((width * 3 + 3) / 4 : Int) : ℚ) * 4 + 4 := by
      exact_mod_cast h2
    have h3 : width * 3 ≤ (width * 3 + 3) / 4 * 4 := by omega
    have h3q : ((width * 3 : Int) : ℚ) ≤ (((width * 3 + 3) / 4 : Int) : ℚ) * 4 := by
      exact_mod_cast h3
    constructor
    · linarith
    · linarith
  refine ⟨andNot3_eq_land _, ?_, ?_, ?_, ?_⟩
  · rw [hceil, hval]
  · rw [hval]; exact Dvd.intro_left _ rfl
  · rw [hval]; omega
  · rw [hval]; omega

/-- C13: for a source with `width > 0`, `height > 0`, `rowSize = (width*3+3) & ~3`,
`rowSize * height` bytes, and `p > 0` with `newWidth = width*p/100 > 0` and
`newHeight = height*p/100 > 0`, `scaleImage` returns those `newWidth` and `newHeight`,
`newRowSize = (newWidth*3+3) & ~3` and a buffer of `newRowSize * newHeight` bytes in
which the three bytes of every destination pixel `(x, y)` are the source's three bytes
at `(y*height/newHeight)*rowSize + (x*width/newWidth)*3`, every row-padding byte is 0,
and destination pixel `(0, 0)` is source pixel `(0, 0)`. -/
theorem scaleImage_nearest (src : List Byte) (width height p : Int)
    (hw : 0 < width) (hh : 0 < height) (hp : 0 < p)
    (hnw : 0 < Int.tdiv (width * p) 100) (hnh : 0 < Int.tdiv (height * p) 100)
    (hlen : (src.length : Int) = rowSizeOf width * height) :
    ∃ dst, scaleImage src width height (rowSizeOf width) p =
        .ok (dst, Int.tdiv (width * p) 100, Int.tdiv (height * p) 100,
          rowSizeOf (Int.tdiv (width * p) 100)) ∧
      (dst.length : Int) = rowSizeOf (Int.tdiv (width * p) 100) * Int.tdiv (height * p) 100 ∧
      (∀ x y c : Nat, (x : Int) < Int.tdiv (width * p) 100 →
        (y : Int) < Int.tdiv (height * p) 100 → c < 3 →
        ∃ b, dst[((y : Int) * rowSizeOf (Int.tdiv (width * p) 100) + (x : Int) * 3
            + (c : Int)).toNat]? = some b ∧
          src[(Int.tdiv ((y : Int) * height) (Int.tdiv (height * p) 100) * rowSizeOf width
            + Int.tdiv ((x : Int) * width) (Int.tdiv (width * p) 100) * 3
            + (c : Int)).toNat]? = some b) ∧
      (∀ y r : Nat, (y : Int) < Int.tdiv (height * p) 100 →
        Int.tdiv (width * p) 100 * 3 ≤ (r : Int) →
        (r : Int) < rowSizeOf (Int.tdiv (width * p) 100) →
        dst[((y : Int) * rowSizeOf (Int.tdiv (width * p) 100) + (r : Int)).toNat]? = some 0) ∧
      (∀ c : Nat, c < 3 → ∃ b, dst[c]? = some b ∧ src[c]? = some b) := by
  obtain ⟨w, rfl⟩ := Int.eq_ofNat_of_zero_le (Int.le_of_lt hw)
  obtain ⟨h, rfl⟩ := Int.eq_ofNat_of_zero_le (Int.le_of_lt hh)
  obtain ⟨q, rfl⟩ := Int.eq_ofNat_of_zero_le (Int.le_of_lt hp)
  have e1 : Int.tdiv ((w : Int) * (q : Int)) 100 = ((w * q / 100 : Nat) : Int) := by
    exact_mod_cast tdiv_natCast (w * q) 100
  have e2 : Int.tdiv ((h : Int) * (q : Int)) 100 = ((h * q / 100 : Nat) : Int) := by
    exact_mod_cast tdiv_natCast (h * q) 100
  simp only [e1, e2, rowSizeOf_natCast] at hnw hnh hlen ⊢
  have hlenN : src.length = ((w * 3 + 3) / 4 * 4) * h := by exact_mod_cast hlen
  obtain ⟨dst, hrun, hl, hP⟩ := scaleImage_spec src w h ((w * 3 + 3) / 4 * 4) q
    (by omega) hlenN
  generalize hrs : (w * 3 + 3) / 4 * 4 = rs at hlenN hrun hl hP ⊢
  generalize hnwN : w * q / 100 = nw at hnw hnh hrun hl hP ⊢
  generalize hnhN : h * q / 100 = nh at hnw hnh hrun hl hP ⊢
  generalize hnrs : (nw * 3 + 3) / 4 * 4 = nrs at hrun hl hP ⊢
  have hwN : 0 < w := by omega
  have hhN : 0 < h := by omega
  have hnwP : 0 < nw := by omega
  have hnhP : 0 < nh := by omega
  have hcomm : rs * h = h * rs := Nat.mul_comm _ _
  have hcomm2 : nrs * nh = nh * nrs := Nat.mul_comm _ _
  have hpix : ∀ x y c : Nat, x < nw → y < nh → c < 3 →
      ∃ b, dst[y * nrs + (x * 3 + c)]? = some b ∧
        src[(y * h / nh) * rs + ((x * w / nw) * 3 + c)]? = some b := by
    intro x y c hx hy hc
    have hY : y * h / nh < h := Nat.div_lt_of_lt_mul (by
      have := mul_add_le_of_lt (c := h) hy
      omega)
    have hX : x * w / nw < w := Nat.div_lt_of_lt_mul (by
      have := mul_add_le_of_lt (c := w) hx
      omega)
    have hYrs := mul_add_le_of_lt (c := rs) hY
    have hin : (y * h / nh) * rs + ((x * w / nw) * 3 + c) < src.length := by omega
    refine ⟨src[(y * h / nh) * rs + ((x * w / nw) * 3 + c)], ?_,
      List.getElem?_eq_getElem hin⟩
    rw [hP y (x * 3 + c) (by omega), if_pos (by omega)]
    have e2 : (x * 3 + c) / 3 = x := by omega
    have e3 : (x * 3 + c) % 3 = c := by omega
    have e4 : y * h / nh * rs + x * w / nw * 3 + c
        = y * h / nh * rs + (x * w / nw * 3 + c) := by omega
    rw [e2, e3, e4, List.getElem?_eq_getElem hin]
  refine ⟨dst, hrun, by rw [hl]; push_cast; rfl, ?_, ?_, ?_⟩
  · intro x y c hx hy hc
    have hxN : x < nw := by omega
    have hyN : y < nh := by omega
    have t1 : Int.tdiv ((y : Int) * (h : Int)) (nh : Int) = ((y * h / nh : Nat) : Int) := by
      exact_mod_cast tdiv_natCast (y * h) nh
    have t2 : Int.tdiv ((x : Int) * (w : Int)) (nw : Int) = ((x * w / nw : Nat) : Int) := by
      exact_mod_cast tdiv_natCast (x * w) nw
    rw [t1, t2, toNat_row_add y nrs (x * 3 + c) _ (by push_cast; ring),
      toNat_row_add (y * h / nh) rs ((x * w / nw) * 3 + c) _ (by push_cast; ring)]
    exact hpix x y c hxN hyN hc
  · intro y r hy hr1 hr2
    have hyN : y < nh := by omega
    have hrN : r < nrs := by omega
    have hyrs := mul_add_le_of_lt (c := nrs) hyN
    rw [toNat_row_add y nrs r _ rfl, hP y r hrN, if_neg (by omega),
      List.getElem?_replicate, if_pos (by omega)]
  · intro c hc
    obtain ⟨b, hb1, hb2⟩ := hpix 0 0 c hnwP hnhP hc
    simp only [Nat.zero_mul, Nat.zero_div, Nat.zero_add] at hb1 hb2
    exact ⟨b, hb1, hb2⟩

theorem scaleImage_nearest_witness :
    ∃ dst, scaleImage sample4x2 4 2 (rowSizeOf 4) 50 = .ok (dst, 2, 1, 8) ∧
      (dst.length : Int) = 8 * 1 ∧
      (∀ x y c : Nat, (x : Int) < 2 → (y : Int) < 1 → c < 3 →
        ∃ b, dst[((y : Int) * 8 + (x : Int) * 3 + (c : Int)).toNat]? = some b ∧
          sample4x2[(Int.tdiv ((y : Int) * 2) 1 * rowSizeOf 4
            + Int.tdiv ((x : Int) * 4) 2 * 3 + (c : Int)).toNat]? = some b) ∧
      (∀ y r : Nat, (y : Int) < 1 → (2 : Int) * 3 ≤ (r : Int) → (r : Int) < 8 →
        dst[((y : Int) * 8 + (r : Int)).toNat]? = some 0) ∧
      (∀ c : Nat, c < 3 → ∃ b, dst[c]? = some b ∧ sample4x2[c]? = some b) :=
  scaleImage_nearest sample4x2 4 2 50 (by decide) (by decide) (by decide) (by decide)
    (by decide) (by decide)

theorem read_length_any (s : IfStream) (buf : List Byte) :
    ((IfStream.read s buf).2).length = buf.length := by
  unfold IfStream.read
  split
  · rfl
  · simp only [List.length_append, List.length_take, List.length_drop]
    omega

/-- C12 (as stated, refuted): `zeroSizeStream` declares `biWidth = 0` and `biHeight = 0`;
`loadBMP` succeeds on it and returns that info header with an empty buffer. -/
theorem loadBMP_accepts_zero_size :
    loadBMP (some zeroSizeStream) sampleFileHeader sampleInfoHeader [] =
        .ok (fileHeaderOf zeroSizeStream, infoHeaderOf zeroSizeStream, [], 0) ∧
      (infoHeaderOf zeroSizeStream).biWidth = 0 ∧
      (infoHeaderOf zeroSizeStream).biHeight = 0 ∧
      ¬ (0 < (infoHeaderOf zeroSizeStream).biWidth ∧
        0 < Int.natAbs (infoHeaderOf zeroSizeStream).biHeight) := by
  decide

theorem loadBMP_success (file : Option (List Byte)) (fh0 fh : BMPFileHeader)
    (ih0 ih : BMPInfoHeader) (data0 data : List Byte) (rowSize : Int)
    (h : loadBMP file fh0 ih0 data0 = .ok (fh, ih, data, rowSize)) :
    validHeaders fh ih ∧ rowSize = rowSizeOf ih.biWidth ∧
      0 ≤ rowSizeOf ih.biWidth * (Int.natAbs ih.biHeight : Int) ∧
      (data.length : Int) = rowSizeOf ih.biWidth * (Int.natAbs ih.biHeight : Int) := by
  unfold loadBMP at h
  cases file with
  | none => cases h
  | some content =>
    simp only [] at h
    split at h
    · cases h
    · rename_i hv
      unfold readPixels at h
      simp only [] at h
      split at h
      · cases h
      · rename_i d hd
        unfold resize at hd
        split at hd
        · cases hd
        · rename_i hn
          simp only [Except.ok.injEq] at hd
          simp only [Except.ok.injEq, Prod.mk.injEq] at h
          obtain ⟨rfl, rfl, rfl, rfl⟩ := h
          refine ⟨?_, rfl, by omega, ?_⟩
          · unfold validHeaders
            simp only [not_or, not_not] at hv
            exact hv
          · rw [read_length_any, ← hd]
            simp only [List.length_append, List.length_take, List.length_replicate]
            omega

/-- C12 (amended): for every byte stream on which `loadBMP` succeeds with `biWidth*3+3`,
`|biHeight|` and `rowSize * |biHeight|` within `int` (lines 46-48 do not overflow), the
returned headers pass the check of line 43 and the returned info header has
`biWidth ≥ -1` or `biHeight = 0`, which is when `rowSize * |biHeight|` is not negative;
the returned buffer has that many bytes. Neither `biWidth > 0` nor `|biHeight| > 0` is
enforced. -/
theorem loadBMP_success_dims (file : Option (List Byte)) (fh0 fh : BMPFileHeader)
    (ih0 ih : BMPInfoHeader) (data0 data : List Byte) (rowSize : Int)
    (h : loadBMP file fh0 ih0 data0 = .ok (fh, ih, data, rowSize))
    (_hfit : loadFits ih) :
    validHeaders fh ih ∧ (-1 ≤ ih.biWidth ∨ ih.biHeight = 0) ∧
      rowSize = rowSizeOf ih.biWidth ∧
      (data.length : Int) = rowSize * (Int.natAbs ih.biHeight : Int) := by
  obtain ⟨hv, hr, hn, hl⟩ := loadBMP_success file fh0 fh ih0 ih data0 data rowSize h
  refine ⟨hv, ?_, hr, by rw [hr]; exact hl⟩
  by_cases hz : ih.biHeight = 0
  · exact Or.inr hz
  · left
    have hpos : (0 : Int) < (Int.natAbs ih.biHeight : Int) := by omega
    have hrs : 0 ≤ rowSizeOf ih.biWidth := by
      by_contra hneg
      have : rowSizeOf ih.biWidth * (Int.natAbs ih.biHeight : Int) < 0 :=
        Int.mul_neg_of_neg_of_pos (by omega) hpos
      omega
    unfold rowSizeOf andNot3 at hrs
    omega

theorem loadBMP_success_dims_witness :
    validHeaders (fileHeaderOf sampleStream) (infoHeaderOf sampleStream) ∧
      (-1 ≤ (infoHeaderOf sampleStream).biWidth ∨ (infoHeaderOf sampleStream).biHeight = 0) ∧
      (4 : Int) = rowSizeOf (infoHeaderOf sampleStream).biWidth ∧
      ((([1, 2, 3, 0] : List Byte).length : Nat) : Int)
        = 4 * (Int.natAbs (infoHeaderOf sampleStream).biHeight : Int) :=
  loadBMP_success_dims (some sampleStream) sampleFileHeader (fileHeaderOf sampleStream)
    sampleInfoHeader (infoHeaderOf sampleStream) [] [1, 2, 3, 0] 4 (by decide) (by decide)

/-- C20 (the code at a failing input): a 1 x 46342 image has a buffer of
`4 * 46342 = 185368` bytes, which fits an `int`; scaled by 100, destination row
`y = 46341 < newHeight` makes the code form `y * height = 46341 * 46342 = 2147534622`,
which does not fit an `int`. -/
theorem scaleImage_product_overflows :
    fitsInt32 (rowSizeOf 1 * 46342) ∧
      (0 : Int) < Int.tdiv (1 * 100) 100 ∧
      (46341 : Int) < Int.tdiv (46342 * 100) 100 ∧
      (46341 : Int) * 46342 ∈ scaleProducts 1 46342 100 46341 0 ∧
      ¬ fitsInt32 ((46341 : Int) * 46342) ∧
      ¬ ∀ v ∈ scaleProducts 1 46342 100 46341 0, fitsInt32 v := by
  decide

/-- Where the four bounding products of `scaleImage` fit an `int`, every product formed
for a destination pixel does. -/
theorem scaleProducts_fit (width height p : Int) (x y : Nat)
    (hw : 0 < width) (hh : 0 < height)
    (h1 : fitsInt32 (width * p)) (h2 : fitsInt32 (height * p))
    (h3 : fitsInt32 (Int.tdiv (width * p) 100 * width))
    (h4 : fitsInt32 (Int.tdiv (height * p) 100 * height))
    (hx : (x : Int) < Int.tdiv (width * p) 100) (hy : (y : Int) < Int.tdiv (height * p) 100) :
    ∀ v ∈ scaleProducts width height p y x, fitsInt32 v := by
  have hxw : (x : Int) * width ≤ Int.tdiv (width * p) 100 * width :=
    Int.mul_le_mul_of_nonneg_right (Int.le_of_lt hx) (Int.le_of_lt hw)
  have hyh : (y : Int) * height ≤ Int.tdiv (height * p) 100 * height :=
    Int.mul_le_mul_of_nonneg_right (Int.le_of_lt hy) (Int.le_of_lt hh)
  have hx0 : (0 : Int) ≤ (x : Int) * width :=
    Int.mul_nonneg (Int.natCast_nonneg _) (Int.le_of_lt hw)
  have hy0 : (0 : Int) ≤ (y : Int) * height :=
    Int.mul_nonneg (Int.natCast_nonneg _) (Int.le_of_lt hh)
  unfold fitsInt32 at h1 h2 h3 h4 ⊢
  intro v hv
  unfold scaleProducts at hv
  simp only [List.mem_cons, List.mem_singleton, List.not_mem_nil, or_false] at hv
  rcases hv with rfl | rfl | rfl | rfl
  · exact h1
  · exact h2
  · constructor <;> omega
  · constructor <;> omega

theorem truncToInt_of_nonneg (q : ℚ) (h : 0 ≤ q) : truncToInt q = Int.floor q := by
  unfold truncToInt
  rw [if_pos h]

theorem rotNewWidth_eq_floor (width height : Int) (cosA sinA : ℚ) :
    rotNewWidth width height cosA sinA
      = Int.floor (abs ((width : ℚ) * cosA) + abs ((height : ℚ) * sinA)) :=
  truncToInt_of_nonneg _ (add_nonneg (abs_nonneg _) (abs_nonneg _))

theorem rotNewHeight_eq_floor (width height : Int) (cosA sinA : ℚ) :
    rotNewHeight width height cosA sinA
      = Int.floor (abs ((width : ℚ) * sinA) + abs ((height : ℚ) * cosA)) :=
  truncToInt_of_nonneg _ (add_nonneg (abs_nonneg _) (abs_nonneg _))

/-- The library `round` returns an integer at distance at most one half. -/
theorem cround_nearest (q : ℚ) :
    ∃ n : Int, cround q = (n : ℚ) ∧ abs (q - (n : ℚ)) ≤ 1 / 2 := by
  unfold cround
  split
  · refine ⟨Int.floor (q + 1 / 2), rfl, ?_⟩
    have h1 := Int.floor_le (q + 1 / 2)
    have h2 := Int.lt_floor_add_one (q + 1 / 2)
    rw [abs_le]
    constructor <;> linarith
  · refine ⟨Int.ceil (q - 1 / 2), rfl, ?_⟩
    have h1 := Int.le_ceil (q - 1 / 2)
    have h2 := Int.ceil_lt_add_one (q - 1 / 2)
    rw [abs_le]
    constructor <;> linarith

/-- C18 (as stated, refuted): a 3x1 source rotated with `cosA = 3/5`, `sinA = 4/5` has
`|width*cosA| + |height*sinA| = 13/5`, whose nearest integer is 3; `rotateImage`
returns `newWidth = 2`. -/
theorem rotateImage_truncates :
    ((3 : ℚ) / 5) ^ 2 + ((4 : ℚ) / 5) ^ 2 = 1 ∧
      round (abs (((3 : Int) : ℚ) * (3 / 5)) + abs (((1 : Int) : ℚ) * (4 / 5))) = 3 ∧
      ∃ dst, rotateImage sample3x1 3 1 (rowSizeOf 3) (3 / 5) (4 / 5)
        = .ok (dst, 2, 3, 8) := by
  refine ⟨by norm_num, ?_, ?_⟩
  · rw [round_eq, Int.floor_eq_iff]
    norm_num [abs_of_nonneg]
  · have hnw : rotNewWidth ((3 : Nat) : Int) ((1 : Nat) : Int) (3 / 5) (4 / 5)
        = ((2 : Nat) : Int) := by
      rw [rotNewWidth_eq_floor, Int.floor_eq_iff]
      norm_num [abs_of_nonneg]
    have hnh : rotNewHeight ((3 : Nat) : Int) ((1 : Nat) : Int) (3 / 5) (4 / 5)
        = ((3 : Nat) : Int) := by
      rw [rotNewHeight_eq_floor, Int.floor_eq_iff]
      norm_num [abs_of_nonneg]
    obtain ⟨dst, hrun, -, -⟩ := rotateImage_spec sample3x1 3 1 12
      (3 / 5) (4 / 5) 2 3 (by decide) (by decide) hnw hnh
    exact ⟨dst, hrun⟩

theorem rotateImageFl_id (src : List Byte) (width height rowSize : Int) (cosA sinA : ℚ) :
    rotateImageFl id src width height rowSize cosA sinA
      = rotateImage src width height rowSize cosA sinA := rfl

/-- Exact arithmetic is a rounding. -/
theorem isRounding_id : IsRounding id := by
  refine ⟨fun v hv => hv, fun v => ?_⟩
  simp only [id, sub_self, abs_zero]
  positivity

theorem roundHalfEven_close (m : ℚ) : abs ((roundHalfEven m : ℚ) - m) ≤ 1 / 2 := by
  unfold roundHalfEven
  have h1 := Int.floor_le m
  have h2 := Int.lt_floor_add_one m
  split_ifs with c1 c2 c3 <;> rw [abs_le] <;> push_cast <;> constructor <;> linarith

theorem roundHalfEven_nonneg (m : ℚ) (h : 0 ≤ m) : 0 ≤ roundHalfEven m := by
  unfold roundHalfEven
  have h1 : 0 ≤ Int.floor m := Int.floor_nonneg.mpr h
  split_ifs <;> omega

theorem log2Floor_spec (fuel n : Nat) (hn : n ≠ 0) (hf : n ≤ fuel) :
    2 ^ log2Floor fuel n ≤ n ∧ n < 2 ^ (log2Floor fuel n + 1) := by
  induction fuel generalizing n with
  | zero => omega
  | succ fuel ih =>
    unfold log2Floor
    split_ifs with h2
    · constructor
      · simp only [pow_zero]; omega
      · simp only [zero_add, pow_one]; omega
    · obtain ⟨h3, h4⟩ := ih (n / 2) (by omega) (by omega)
      simp only [pow_succ] at h4 ⊢
      constructor <;> omega

theorem two_zpow_log2_le (a : ℚ) (ha : 0 < a) :
    (2 : ℚ) ^ ((log2Floor a.num.natAbs a.num.natAbs : Int)
      - (log2Floor a.den a.den : Int) - 1) ≤ a := by
  have hnum : 0 < a.num := Rat.num_pos.mpr ha
  have hn0 : a.num.natAbs ≠ 0 := by omega
  have h1 : 2 ^ log2Floor a.num.natAbs a.num.natAbs ≤ a.num.natAbs :=
    (log2Floor_spec _ _ hn0 (le_refl _)).1
  have h2 : a.den < 2 ^ (log2Floor a.den a.den + 1) :=
    (log2Floor_spec _ _ a.den_nz (le_refl _)).2
  have hd : (0 : ℚ) < (a.den : ℚ) := by exact_mod_cast a.den_pos
  have e1 : ((a.num.natAbs : Nat) : ℚ) = (a.num : ℚ) := by
    have : ((a.num.natAbs : Nat) : Int) = a.num := Int.natAbs_of_nonneg (Int.le_of_lt hnum)
    rw [← Int.cast_natCast, this]
  have e2 : a = (a.num : ℚ) / (a.den : ℚ) := (Rat.num_div_den a).symm
  have h1q : (2 : ℚ) ^ log2Floor a.num.natAbs a.num.natAbs ≤ (a.num : ℚ) := by
    rw [← e1]; exact_mod_cast h1
  have h2q : (a.den : ℚ) ≤ (2 : ℚ) ^ (log2Floor a.den a.den + 1) := by
    exact_mod_cast Nat.le_of_lt h2
  have e3 : (2 : ℚ) ^ ((log2Floor a.num.natAbs a.num.natAbs : Int)
        - (log2Floor a.den a.den : Int) - 1)
      = (2 : ℚ) ^ log2Floor a.num.natAbs a.num.natAbs
        / (2 : ℚ) ^ (log2Floor a.den a.den + 1) := by
    rw [show ((log2Floor a.num.natAbs a.num.natAbs : Int) - (log2Floor a.den a.den : Int) - 1)
      = (log2Floor a.num.natAbs a.num.natAbs : Int)
        - ((log2Floor a.den a.den + 1 : Nat) : Int) by push_cast; ring,
      zpow_sub₀ (by norm_num), zpow_natCast, zpow_natCast]
  rw [e3]
  conv_rhs => rw [e2]
  have hp : (0 : ℚ) < (2 : ℚ) ^ (log2Floor a.den a.den + 1) := by positivity
  rw [div_le_div_iff₀ hp hd]
  have hnum' : (0 : ℚ) ≤ (a.num : ℚ) := by exact_mod_cast Int.le_of_lt hnum
  calc (2 : ℚ) ^ log2Floor a.num.natAbs a.num.natAbs * (a.den : ℚ)
      ≤ (a.num : ℚ) * (a.den : ℚ) := by nlinarith
    _ ≤ (a.num : ℚ) * (2 : ℚ) ^ (log2Floor a.den a.den + 1) := by nlinarith

/-- Binary64 round-to-nearest is a rounding in the sense of `IsRounding`. -/
theorem isRounding_roundDouble : IsRounding roundDouble := by
  constructor
  · intro v hv
    unfold roundDouble
    by_cases h0 : v = 0
    · rw [if_pos h0]
    · rw [if_neg h0]
      simp only []
      rw [if_pos hv]
      refine mul_nonneg ?_ (le_of_lt (zpow_pos (by norm_num) _))
      exact_mod_cast roundHalfEven_nonneg _
        (div_nonneg (abs_nonneg _) (le_of_lt (zpow_pos (by norm_num) _)))
  · intro v
    unfold roundDouble
    by_cases h0 : v = 0
    · rw [if_pos h0]; subst h0; norm_num
    · rw [if_neg h0]
      simp only []
      have ha : 0 < abs v := abs_pos.mpr h0
      generalize he0 : ((log2Floor (abs v).num.natAbs (abs v).num.natAbs : Int)
        - (log2Floor (abs v).den (abs v).den : Int)) = e0
      generalize he : (if (2 : ℚ) ^ e0 ≤ abs v then e0 else e0 - 1) = e
      have hle : (2 : ℚ) ^ e ≤ abs v := by
        rw [← he]
        split_ifs with c
        · exact c
        · rw [← he0]; exact two_zpow_log2_le _ ha
      generalize hp : max e (-1022) - 52 = p
      have hpp : (0 : ℚ) < (2 : ℚ) ^ p := zpow_pos (by norm_num) _
      have hk := roundHalfEven_close (abs v / (2 : ℚ) ^ p)
      generalize roundHalfEven (abs v / (2 : ℚ) ^ p) = k at hk
      have hk2 : abs ((k : ℚ) * (2 : ℚ) ^ p - abs v) ≤ (2 : ℚ) ^ p / 2 := by
        have : (k : ℚ) * (2 : ℚ) ^ p - abs v = ((k : ℚ) - abs v / (2 : ℚ) ^ p) * (2 : ℚ) ^ p := by
          field_simp
        rw [this, abs_mul, abs_of_pos hpp]
        calc abs ((k : ℚ) - abs v / (2 : ℚ) ^ p) * (2 : ℚ) ^ p ≤ 1 / 2 * (2 : ℚ) ^ p :=
              mul_le_mul_of_nonneg_right hk (le_of_lt hpp)
          _ = (2 : ℚ) ^ p / 2 := by ring
      have hbound : (2 : ℚ) ^ p / 2 ≤ (abs v + 1) / 9007199254740992 := by
        rcases le_total (-1022) e with c | c
        · have : p = e - 52 := by rw [← hp, max_eq_left c]
          rw [this, zpow_sub₀ (by norm_num)]
          have h52 : (2 : ℚ) ^ (52 : Int) = 4503599627370496 := by norm_num
          rw [h52]
          have : (2 : ℚ) ^ e / 4503599627370496 / 2 = (2 : ℚ) ^ e / 9007199254740992 := by ring
          rw [this]
          apply div_le_div_of_nonneg_right _ (by norm_num)
          linarith
        · have : p = -1074 := by rw [← hp, max_eq_right c]; norm_num
          rw [this]
          have h1 : (2 : ℚ) ^ (-1074 : Int) ≤ (2 : ℚ) ^ (-52 : Int) :=
            zpow_le_zpow_right₀ (by norm_num) (by norm_num)
          have h2 : (2 : ℚ) ^ (-52 : Int) = 1 / 4503599627370496 := by norm_num
          rw [h2] at h1
          have h3 : (0 : ℚ) ≤ abs v := abs_nonneg v
          generalize (2 : ℚ) ^ (-1074 : Int) = X at h1 ⊢
          generalize abs v = A at h3 ⊢
          rw [div_le_div_iff₀ (by norm_num) (by norm_num)]
          linarith
      by_cases hv : 0 ≤ v
      · rw [if_pos hv]
        have hk3 := hk2
        rw [abs_of_nonneg hv] at hk3
        exact le_trans hk3 hbound
      · rw [if_neg hv]
        have hneg : v < 0 := not_le.mp hv
        have : -((k : ℚ) * (2 : ℚ) ^ p) - v = -((k : ℚ) * (2 : ℚ) ^ p - abs v) := by
          rw [abs_of_neg hneg]; ring
        rw [this, abs_neg]
        exact le_trans hk2 hbound

theorem rotNewWidthFl_nonneg (fl : ℚ → ℚ) (hfl : IsRounding fl) (width height : Int)
    (cosA sinA : ℚ) : 0 ≤ rotNewWidthFl fl width height cosA sinA :=
  truncToInt_nonneg _ (hfl.1 _ (add_nonneg (abs_nonneg _) (abs_nonneg _)))

theorem rotNewHeightFl_nonneg (fl : ℚ → ℚ) (hfl : IsRounding fl) (width height : Int)
    (cosA sinA : ℚ) : 0 ≤ rotNewHeightFl fl width height cosA sinA :=
  truncToInt_nonneg _ (hfl.1 _ (add_nonneg (abs_nonneg _) (abs_nonneg _)))

theorem rotateImageFl_spec (fl : ℚ → ℚ) (src : List Byte) (w h rs : Nat) (cosA sinA : ℚ)
    (nw nh : Nat) (hrs : 3 * w ≤ rs) (hlen : src.length = rs * h)
    (hnw : rotNewWidthFl fl (w : Int) (h : Int) cosA sinA = (nw : Int))
    (hnh : rotNewHeightFl fl (w : Int) (h : Int) cosA sinA = (nh : Int)) :
    ∃ dst, rotateImageFl fl src (w : Int) (h : Int) (rs : Int) cosA sinA =
        .ok (dst, (nw : Int), (nh : Int), (((nw * 3 + 3) / 4 * 4 : Nat) : Int)) ∧
      dst.length = ((nw * 3 + 3) / 4 * 4) * nh ∧
      ∀ y r, r < (nw * 3 + 3) / 4 * 4 →
        dst[y * ((nw * 3 + 3) / 4 * 4) + r]? =
          if y < nh ∧ r < 3 * nw
          then pixelByte src (List.replicate (((nw * 3 + 3) / 4 * 4) * nh) (255 : Byte))
            (rotSelFl fl (w : Int) (h : Int) (rs : Int) (nw : Int) (nh : Int) cosA sinA)
            ((nw * 3 + 3) / 4 * 4) y r
          else (List.replicate (((nw * 3 + 3) / 4 * 4) * nh)
            (255 : Byte))[y * ((nw * 3 + 3) / 4 * 4) + r]? := by
  generalize hnrs : (nw * 3 + 3) / 4 * 4 = nrs
  have e3 : rowSizeOf (nw : Int) = (nrs : Int) := by
    rw [rowSizeOf_natCast, hnrs]
  have e4 : assign ((nrs : Int) * (nh : Int)) 255
      = .ok (List.replicate (nrs * nh) (255 : Byte)) := by
    have hnn : (0 : Int) ≤ (nrs : Int) * (nh : Int) := by positivity
    have htn : ((nrs : Int) * (nh : Int)).toNat = nrs * nh := by
      exact_mod_cast Int.toNat_ofNat (nrs * nh)
    unfold assign
    rw [if_neg (by omega), htn]
  have hcomm : rs * h = h * rs := Nat.mul_comm _ _
  obtain ⟨d', hrun, hlen', hP⟩ := pixelLoop_spec src (List.replicate (nrs * nh) (255 : Byte))
    (rotSelFl fl (w : Int) (h : Int) (rs : Int) (nw : Int) (nh : Int) cosA sinA)
    (fun y x dst => rotatePixelFl fl src (w : Int) (h : Int) (rs : Int) cosA sinA (nw : Int)
      (nh : Int) (nrs : Int) y x dst)
    nw nh nrs (by omega) (by simp)
    (by
      intro y x so _ _ hso
      unfold rotSelFl at hso
      simp only [] at hso
      split at hso
      · rename_i hc
        obtain ⟨hx0, hxw, hy0, hyh⟩ := hc
        simp only [Option.some.injEq] at hso
        subst hso
        generalize (rotSourceFl fl (w : Int) (h : Int) (nw : Int) (nh : Int)
          cosA sinA y x).1 = ix at hx0 hxw
        generalize (rotSourceFl fl (w : Int) (h : Int) (nw : Int) (nh : Int)
          cosA sinA y x).2 = iy at hy0 hyh
        obtain ⟨a, rfl⟩ := Int.eq_ofNat_of_zero_le hx0
        obtain ⟨b, rfl⟩ := Int.eq_ofNat_of_zero_le hy0
        have hb : b < h := by omega
        have ha : a < w := by omega
        have := mul_add_le_of_lt (c := rs) hb
        have e : ((b : Int) * (rs : Int) + (a : Int) * 3).toNat = b * rs + a * 3 := by
          have : ((b : Int) * (rs : Int) + (a : Int) * 3) = ((b * rs + a * 3 : Nat) : Int) := by
            push_cast; rfl
          rw [this, Int.toNat_ofNat]
        rw [e]
        omega
      · cases hso)
    (by
      intro y x dst _ _ _
      unfold rotatePixelFl rotSelFl
      simp only []
      split
      · rename_i hc
        obtain ⟨hx0, -, hy0, -⟩ := hc
        simp only []
        congr 1
        rw [Int.toNat_of_nonneg (by positivity)]
      · rfl)
  refine ⟨d', ?_, by rw [hlen']; simp, hP⟩
  unfold rotateImageFl
  simp only [hnw, hnh, e3, e4, Int.toNat_ofNat]
  rw [hrun]

theorem rotateImageFl_returns (fl : ℚ → ℚ) (hfl : IsRounding fl) (src : List Byte)
    (width height rowSize : Int) (cosA sinA : ℚ)
    (hw : 0 < width) (hh : 0 < height) (hrs : width * 3 ≤ rowSize)
    (hlen : (src.length : Int) = rowSize * height) :
    ∃ (dst : List Byte) (w rs nw nh : Nat),
      width = (w : Int) ∧ rowSize = (rs : Int) ∧
      rotNewWidthFl fl width height cosA sinA = (nw : Int) ∧
      rotNewHeightFl fl width height cosA sinA = (nh : Int) ∧
      rotateImageFl fl src width height rowSize cosA sinA =
        .ok (dst, (nw : Int), (nh : Int), (((nw * 3 + 3) / 4 * 4 : Nat) : Int)) ∧
      dst.length = ((nw * 3 + 3) / 4 * 4) * nh ∧
      ∀ y r, r < (nw * 3 + 3) / 4 * 4 →
        dst[y * ((nw * 3 + 3) / 4 * 4) + r]? =
          if y < nh ∧ r < 3 * nw
          then pixelByte src (List.replicate (((nw * 3 + 3) / 4 * 4) * nh) (255 : Byte))
            (rotSelFl fl width height rowSize (nw : Int) (nh : Int) cosA sinA)
            ((nw * 3 + 3) / 4 * 4) y r
          else (List.replicate (((nw * 3 + 3) / 4 * 4) * nh)
            (255 : Byte))[y * ((nw * 3 + 3) / 4 * 4) + r]? := by
  obtain ⟨w, rfl⟩ := Int.eq_ofNat_of_zero_le (Int.le_of_lt hw)
  obtain ⟨h, rfl⟩ := Int.eq_ofNat_of_zero_le (Int.le_of_lt hh)
  obtain ⟨rs, rfl⟩ := Int.eq_ofNat_of_zero_le (show (0 : Int) ≤ rowSize by omega)
  obtain ⟨nw, hnw⟩ :=
    Int.eq_ofNat_of_zero_le (rotNewWidthFl_nonneg fl hfl (w : Int) (h : Int) cosA sinA)
  obtain ⟨nh, hnh⟩ :=
    Int.eq_ofNat_of_zero_le (rotNewHeightFl_nonneg fl hfl (w : Int) (h : Int) cosA sinA)
  have hlenN : src.length = rs * h := by exact_mod_cast hlen
  obtain ⟨dst, hrun, hl, hP⟩ := rotateImageFl_spec fl src w h rs cosA sinA nw nh (by omega)
    hlenN hnw hnh
  exact ⟨dst, w, rs, nw, nh, rfl, rfl, hnw, hnh, hrun, hl, hP⟩

/-- The `double` value of `|a| + |b|` for `|a|, |b| ≤ 2^31` is within `2^-19` of the
exact sum. -/
theorem fl_sum_close (fl : ℚ → ℚ) (hfl : IsRounding fl) (a b : ℚ)
    (ha : abs a ≤ 2147483648) (hb : abs b ≤ 2147483648) :
    abs (fl (abs (fl a) + abs (fl b)) - (abs a + abs b)) ≤ 1 / 524288 := by
  have h1 := le_trans (abs_abs_sub_abs_le_abs_sub (fl a) a) (hfl.2 a)
  have h2 := le_trans (abs_abs_sub_abs_le_abs_sub (fl b) b) (hfl.2 b)
  have h3 := hfl.2 (abs (fl a) + abs (fl b))
  have hna := abs_nonneg a
  have hnb := abs_nonneg b
  have hnfa := abs_nonneg (fl a)
  have hnfb := abs_nonneg (fl b)
  rw [abs_of_nonneg (add_nonneg hnfa hnfb)] at h3
  generalize abs a = A at *
  generalize abs b = B at *
  generalize abs (fl a) = A' at *
  generalize abs (fl b) = B' at *
  generalize fl (A' + B') = S' at *
  rw [abs_le] at h1 h2 h3 ⊢
  constructor <;> linarith [h1.1, h1.2, h2.1, h2.2, h3.1, h3.2]

theorem floor_of_close (s s' : ℚ) (h : abs (s' - s) ≤ 1 / 524288) :
    Int.floor (s - 1 / 524288) ≤ Int.floor s' ∧ Int.floor s' ≤ Int.floor (s + 1 / 524288) ∧
      (1 / 524288 ≤ Int.fract s → Int.fract s + 1 / 524288 < 1 →
        Int.floor s' = Int.floor s) := by
  rw [abs_le] at h
  have h1 : Int.floor (s - 1 / 524288) ≤ Int.floor s' := Int.floor_mono (by linarith [h.1])
  have h2 : Int.floor s' ≤ Int.floor (s + 1 / 524288) := Int.floor_mono (by linarith [h.2])
  refine ⟨h1, h2, fun g1 g2 => ?_⟩
  have hf := Int.self_sub_floor s
  rw [Int.floor_eq_iff]
  constructor <;> linarith [h.1, h.2]

theorem abs_mul_le_of_fits (n : Int) (c : ℚ) (hn0 : 0 < n) (hn : n ≤ 2147483647)
    (hc : abs c ≤ 1) : abs ((n : ℚ) * c) ≤ 2147483648 := by
  rw [abs_mul]
  have h1 : abs (n : ℚ) = (n : ℚ) := abs_of_nonneg (by exact_mod_cast Int.le_of_lt hn0)
  have h2 : (n : ℚ) ≤ 2147483647 := by exact_mod_cast hn
  have h3 : (0 : ℚ) ≤ (n : ℚ) := by exact_mod_cast Int.le_of_lt hn0
  rw [h1]
  nlinarith [abs_nonneg c]

theorem surface_dims_fit (width height rowSize : Int) (hw : 0 < width) (hh : 0 < height)
    (hrs : width * 3 ≤ rowSize) (hfit : fitsInt32 (rowSize * height)) :
    width ≤ 2147483647 ∧ height ≤ 2147483647 := by
  obtain ⟨-, hle⟩ := hfit
  have h1 : rowSize * 1 ≤ rowSize * height :=
    Int.mul_le_mul_of_nonneg_left (by omega) (by omega)
  have h2 : 1 * height ≤ rowSize * height :=
    Int.mul_le_mul_of_nonneg_right (by omega) (by omega)
  constructor <;> omega

/-- C18 (amended): for a source surface with `width > 0`, `height > 0`, a rounding `fl`
of `double` arithmetic and `|cosA|, |sinA| ≤ 1`, where no `int` value overflows,
`rotateImage` returns `newWidth` and `newHeight` equal to the `double` sums
`|width*cosA| + |height*sinA|` and `|width*sinA| + |height*cosA|` truncated, not rounded
to the nearest integer, and `newRowSize = (newWidth*3+3) & ~3`. The truncated `double`
sum lies between `floor(s - 2^-19)` and `floor(s + 2^-19)` for the exact sum `s`, and it
is `floor(s)` whenever the fractional part of `s` lies in `[2^-19, 1 - 2^-19)`. -/
theorem rotateImageFl_dims (fl : ℚ → ℚ) (src : List Byte) (width height rowSize : Int)
    (cosA sinA : ℚ) (hfl : IsRounding fl) (hw : 0 < width) (hh : 0 < height)
    (hrs : width * 3 ≤ rowSize) (hlen : (src.length : Int) = rowSize * height)
    (hc : abs cosA ≤ 1) (hs : abs sinA ≤ 1)
    (hfit : rotFits fl width height rowSize cosA sinA) :
    ∃ (dst : List Byte) (newWidth newHeight : Int),
      rotateImageFl fl src width height rowSize cosA sinA =
        .ok (dst, newWidth, newHeight, rowSizeOf newWidth) ∧
      newWidth = Int.floor
        (fl (abs (fl ((width : ℚ) * cosA)) + abs (fl ((height : ℚ) * sinA)))) ∧
      newHeight = Int.floor
        (fl (abs (fl ((width : ℚ) * sinA)) + abs (fl ((height : ℚ) * cosA)))) ∧
      Int.floor (abs ((width : ℚ) * cosA) + abs ((height : ℚ) * sinA) - 1 / 524288)
        ≤ newWidth ∧
      newWidth ≤
        Int.floor (abs ((width : ℚ) * cosA) + abs ((height : ℚ) * sinA) + 1 / 524288) ∧
      Int.floor (abs ((width : ℚ) * sinA) + abs ((height : ℚ) * cosA) - 1 / 524288)
        ≤ newHeight ∧
      newHeight ≤
        Int.floor (abs ((width : ℚ) * sinA) + abs ((height : ℚ) * cosA) + 1 / 524288) ∧
      (1 / 524288 ≤ Int.fract (abs ((width : ℚ) * cosA) + abs ((height : ℚ) * sinA)) →
        Int.fract (abs ((width : ℚ) * cosA) + abs ((height : ℚ) * sinA)) + 1 / 524288 < 1 →
        newWidth = Int.floor (abs ((width : ℚ) * cosA) + abs ((height : ℚ) * sinA))) ∧
      (1 / 524288 ≤ Int.fract (abs ((width : ℚ) * sinA) + abs ((height : ℚ) * cosA)) →
        Int.fract (abs ((width : ℚ) * sinA) + abs ((height : ℚ) * cosA)) + 1 / 524288 < 1 →
        newHeight = Int.floor (abs ((width : ℚ) * sinA) + abs ((height : ℚ) * cosA))) := by
  obtain ⟨dst, w, rs, nw, nh, -, -, hnw, hnh, hrun, -, -⟩ :=
    rotateImageFl_returns fl hfl src width height rowSize cosA sinA hw hh hrs hlen
  obtain ⟨hwle, hhle⟩ := surface_dims_fit width height rowSize hw hh hrs hfit.1
  have ewc := abs_mul_le_of_fits width cosA hw hwle hc
  have ews := abs_mul_le_of_fits width sinA hw hwle hs
  have ehc := abs_mul_le_of_fits height cosA hh hhle hc
  have ehs := abs_mul_le_of_fits height sinA hh hhle hs
  have eW : rotNewWidthFl fl width height cosA sinA = Int.floor
      (fl (abs (fl ((width : ℚ) * cosA)) + abs (fl ((height : ℚ) * sinA)))) :=
    truncToInt_of_nonneg _ (hfl.1 _ (add_nonneg (abs_nonneg _) (abs_nonneg _)))
  have eH : rotNewHeightFl fl width height cosA sinA = Int.floor
      (fl (abs (fl ((width : ℚ) * sinA)) + abs (fl ((height : ℚ) * cosA)))) :=
    truncToInt_of_nonneg _ (hfl.1 _ (add_nonneg (abs_nonneg _) (abs_nonneg _)))
  obtain ⟨a1, a2, a3⟩ := floor_of_close _ _
    (fl_sum_close fl hfl ((width : ℚ) * cosA) ((height : ℚ) * sinA) ewc ehs)
  obtain ⟨b1, b2, b3⟩ := floor_of_close _ _
    (fl_sum_close fl hfl ((width : ℚ) * sinA) ((height : ℚ) * cosA) ews ehc)
  refine ⟨dst, rotNewWidthFl fl width height cosA sinA,
    rotNewHeightFl fl width height cosA sinA, ?_, eW, eH, ?_, ?_, ?_, ?_, ?_, ?_⟩
  · rw [hnw, hnh, rowSizeOf_natCast]
    exact hrun
  · rw [eW]; exact a1
  · rw [eW]; exact a2
  · rw [eH]; exact b1
  · rw [eH]; exact b2
  · rw [eW]; exact a3
  · rw [eH]; exact b3

theorem rotateImageFl_dims_witness :
    ∃ (dst : List Byte) (newWidth newHeight : Int),
      rotateImageFl roundDouble sample2x2 2 2 8 cos30 sin30 =
        .ok (dst, newWidth, newHeight, rowSizeOf newWidth) ∧
      newWidth = Int.floor
        (roundDouble (abs (roundDouble (((2 : Int) : ℚ) * cos30))
          + abs (roundDouble (((2 : Int) : ℚ) * sin30)))) ∧
      newHeight = Int.floor
        (roundDouble (abs (roundDouble (((2 : Int) : ℚ) * sin30))
          + abs (roundDouble (((2 : Int) : ℚ) * cos30)))) ∧
      Int.floor (abs (((2 : Int) : ℚ) * cos30) + abs (((2 : Int) : ℚ) * sin30) - 1 / 524288)
        ≤ newWidth ∧
      newWidth ≤
        Int.floor (abs (((2 : Int) : ℚ) * cos30) + abs (((2 : Int) : ℚ) * sin30) + 1 / 524288) ∧
      Int.floor (abs (((2 : Int) : ℚ) * sin30) + abs (((2 : Int) : ℚ) * cos30) - 1 / 524288)
        ≤ newHeight ∧
      newHeight ≤
        Int.floor (abs (((2 : Int) : ℚ) * sin30) + abs (((2 : Int) : ℚ) * cos30) + 1 / 524288) ∧
      (1 / 524288 ≤ Int.fract (abs (((2 : Int) : ℚ) * cos30) + abs (((2 : Int) : ℚ) * sin30)) →
        Int.fract (abs (((2 : Int) : ℚ) * cos30) + abs (((2 : Int) : ℚ) * sin30))
          + 1 / 524288 < 1 →
        newWidth = Int.floor (abs (((2 : Int) : ℚ) * cos30) + abs (((2 : Int) : ℚ) * sin30))) ∧
      (1 / 524288 ≤ Int.fract (abs (((2 : Int) : ℚ) * sin30) + abs (((2 : Int) : ℚ) * cos30)) →
        Int.fract (abs (((2 : Int) : ℚ) * sin30) + abs (((2 : Int) : ℚ) * cos30))
          + 1 / 524288 < 1 →
        newHeight = Int.floor (abs (((2 : Int) : ℚ) * sin30) + abs (((2 : Int) : ℚ) * cos30))) :=
  rotateImageFl_dims roundDouble sample2x2 2 2 8 cos30 sin30 isRounding_roundDouble
    (by decide) (by decide) (by decide) (by decide) (by decide!) (by decide!) (by decide!)

/-- The truncation of line 106 with the library's doubles: for a 3x1 source at
53.13010235415598 degrees (`cosA = 0x1.3333333333333p-1`, `sinA = 0x1.999999999999ap-1`,
the doubles next to `3/5` and `4/5`) the `double` sum `|width*cosA| + |height*sinA|` has
nearest integer 3, and `rotateImageFl` returns `newWidth = 2`. -/
theorem rotateImageFl_truncates :
    round (roundDouble (abs (roundDouble (((3 : Int) : ℚ)
          * (5404319552844595 / 9007199254740992)))
        + abs (roundDouble (((1 : Int) : ℚ) * (3602879701896397 / 4503599627370496))))) = 3 ∧
      rotateImageFl roundDouble sample3x1 3 1 12 (5404319552844595 / 9007199254740992)
          (3602879701896397 / 4503599627370496) =
        .ok ([1, 2, 3, 1, 2, 3, 255, 255, 255, 255, 255, 4, 5, 6, 255, 255,
          255, 255, 255, 255, 255, 255, 255, 255], 2, 3, 8) := by
  decide!

/-- The truncated `double` sum is not always the floor of the exact sum: for a 1x2
source at 53.13010235415599 degrees (`cosA = 0x1.3333333333332p-1`,
`sinA = 0x1.999999999999bp-1`) the exact `|width*sinA| + |height*cosA|` is `2 - 2^-53`,
with floor 1; the `double` sum is 2 and `newHeight = 2`. -/
theorem rotNewHeightFl_rounds_up :
    abs (((1 : Int) : ℚ) * (7205759403792795 / 9007199254740992))
        + abs (((2 : Int) : ℚ) * (2702159776422297 / 4503599627370496))
        = 2 - 1 / 9007199254740992 ∧
      rotNewHeight 1 2 (2702159776422297 / 4503599627370496)
        (7205759403792795 / 9007199254740992) = 1 ∧
      rotNewHeightFl roundDouble 1 2 (2702159776422297 / 4503599627370496)
        (7205759403792795 / 9007199254740992) = 2 := by
  decide!

/-- C19 (as stated, refuted), at two inputs. First, a 2x2 source rotated by 30 degrees,
`cos30` and `sin30` being the doubles the library returns, gives a 2x2 result. For
destination pixel `(x, y) = (0, 1)` the claim's coordinates `cosA*dx + sinA*dy + width/2`
and `-sinA*dx + cosA*dy + height/2` are `1 - cos30` and `3/2 - 2^-54`, with nearest
integers `(0, 1)`: a pixel of the source, whose bytes at `1*8 + 0*3` are `9, 10, 11`. The
code computes in `double`, where the second coordinate is rounded to `3/2` and `round`
gives `iy = 2`, outside the source: the pixel keeps `255, 255, 255` (bytes 8 to 10 of
the result). Second, a `1 x 37837` source has `4 * 37837 = 151348` bytes; rotated by 45
degrees it has `newWidth = newHeight = 26755` and `newRowSize = 80268`, and the claimed
buffer length `newRowSize * newHeight = 2147570340` is not a value of the `int` product
that line 109 passes to `assign`. -/
theorem rotateImage_inverse_map_refuted :
    (rotateImageFl roundDouble sample2x2 2 2 8 cos30 sin30 =
        .ok ([9, 10, 11, 4, 5, 6, 255, 255, 255, 255, 255, 12, 13, 14, 255, 255], 2, 2, 8) ∧
      cos30 * ((0 : ℚ) - 2 / 2) + sin30 * ((1 : ℚ) - 2 / 2) + 2 / 2 = 1 - cos30 ∧
      -sin30 * ((0 : ℚ) - 2 / 2) + cos30 * ((1 : ℚ) - 2 / 2) + 2 / 2
        = 3 / 2 - 1 / 18014398509481984 ∧
      round (cos30 * ((0 : ℚ) - 2 / 2) + sin30 * ((1 : ℚ) - 2 / 2) + 2 / 2) = 0 ∧
      round (-sin30 * ((0 : ℚ) - 2 / 2) + cos30 * ((1 : ℚ) - 2 / 2) + 2 / 2) = 1 ∧
      (sample2x2.drop (1 * 8 + 0 * 3)).take 3 = [9, 10, 11] ∧
      roundDouble (3 / 2 - 1 / 18014398509481984) = 3 / 2 ∧
      rotSourceFl roundDouble 2 2 2 2 cos30 sin30 1 0 = (0, 2)) ∧
    (rowSizeOf 1 * 37837 = 151348 ∧
      rotNewWidthFl roundDouble 1 37837 cos45 sin45 = 26755 ∧
      rotNewHeightFl roundDouble 1 37837 cos45 sin45 = 26755 ∧
      rowSizeOf 26755 = 80268 ∧
      rowSizeOf 26755 * 26755 = 2147570340 ∧
      ¬ fitsInt32 (rowSizeOf (rotNewWidthFl roundDouble 1 37837 cos45 sin45)
        * rotNewHeightFl roundDouble 1 37837 cos45 sin45)) := by
  decide!

/-- C19 (amended): for a source surface with `width > 0`, `height > 0` (rows holding
their `width*3` pixel bytes, buffer length `rowSize * height`), any `cosA`, `sinA` of
magnitude at most 1 and a rounding `fl` of `double` arithmetic, where no `int` value
overflows, `rotateImage` returns a buffer of `newRowSize * newHeight` bytes. With
`(ix, iy)` the `round` of the `double` values of `cosA*dx + sinA*dy + width/2` and
`-sinA*dx + cosA*dy + height/2` for `dx = x - newWidth/2`, `dy = y - newHeight/2`, each
destination pixel `(x, y)` holds the source's three bytes at `iy*rowSize + ix*3` if
`0 ≤ ix < width` and `0 ≤ iy < height`, a read that lies inside the source buffer, and
`255, 255, 255` otherwise; every row-padding byte is 255. -/
theorem rotateImageFl_inverse_map (fl : ℚ → ℚ) (src : List Byte)
    (width height rowSize : Int) (cosA sinA : ℚ) (hfl : IsRounding fl)
    (hw : 0 < width) (hh : 0 < height) (hrs : width * 3 ≤ rowSize)
    (hlen : (src.length : Int) = rowSize * height)
    (_hc : abs cosA ≤ 1) (_hs : abs sinA ≤ 1)
    (_hfit : rotFits fl width height rowSize cosA sinA) :
    ∃ (dst : List Byte) (newWidth newHeight : Int),
      rotateImageFl fl src width height rowSize cosA sinA =
        .ok (dst, newWidth, newHeight, rowSizeOf newWidth) ∧
      (dst.length : Int) = rowSizeOf newWidth * newHeight ∧
      (∀ x y : Nat,
        rotSourceFl fl width height newWidth newHeight cosA sinA y x =
        (truncToInt (cround
          (fl (fl (fl (cosA * fl ((x : ℚ) - fl ((newWidth : ℚ) / 2)))
              + fl (sinA * fl ((y : ℚ) - fl ((newHeight : ℚ) / 2))))
            + fl ((width : ℚ) / 2)))),
         truncToInt (cround
          (fl (fl (fl (-sinA * fl ((x : ℚ) - fl ((newWidth : ℚ) / 2)))
              + fl (cosA * fl ((y : ℚ) - fl ((newHeight : ℚ) / 2))))
            + fl ((height : ℚ) / 2)))))) ∧
      (∀ x y c : Nat, (x : Int) < newWidth → (y : Int) < newHeight → c < 3 →
        ∀ ix iy : Int,
          rotSourceFl fl width height newWidth newHeight cosA sinA y x = (ix, iy) →
          ((0 ≤ ix ∧ ix < width ∧ 0 ≤ iy ∧ iy < height) →
            0 ≤ iy * rowSize + ix * 3 ∧ iy * rowSize + ix * 3 + 3 ≤ (src.length : Int) ∧
            ∃ b, dst[((y : Int) * rowSizeOf newWidth + (x : Int) * 3 + (c : Int)).toNat]?
                = some b ∧
              src[(iy * rowSize + ix * 3 + (c : Int)).toNat]? = some b) ∧
          (¬ (0 ≤ ix ∧ ix < width ∧ 0 ≤ iy ∧ iy < height) →
            dst[((y : Int) * rowSizeOf newWidth + (x : Int) * 3 + (c : Int)).toNat]?
              = some 255)) ∧
      (∀ y r : Nat, (y : Int) < newHeight → newWidth * 3 ≤ (r : Int) →
        (r : Int) < rowSizeOf newWidth →
        dst[((y : Int) * rowSizeOf newWidth + (r : Int)).toNat]? = some 255) := by
  obtain ⟨dst, w, rs, nw, nh, hwN, hrsN, hnw, hnh, hrun, hl, hP⟩ :=
    rotateImageFl_returns fl hfl src width height rowSize cosA sinA hw hh hrs hlen
  refine ⟨dst, (nw : Int), (nh : Int), ?_⟩
  simp only [rowSizeOf_natCast]
  generalize hnrs : (nw * 3 + 3) / 4 * 4 = nrs at hrun hl hP ⊢
  have hcomm2 : nrs * nh = nh * nrs := Nat.mul_comm _ _
  refine ⟨hrun, by rw [hl]; push_cast; rfl, fun x y => rfl, ?_, ?_⟩
  · intro x y c hx hy hc ix iy hsrc
    have hxN : x < nw := by omega
    have hyN : y < nh := by omega
    have hyrs := mul_add_le_of_lt (c := nrs) hyN
    have e2 : (x * 3 + c) / 3 = x := by omega
    have e3 : (x * 3 + c) % 3 = c := by omega
    have hdst := hP y (x * 3 + c) (by omega)
    rw [if_pos (by omega)] at hdst
    unfold pixelByte rotSelFl at hdst
    rw [e2, e3, hsrc] at hdst
    simp only [] at hdst
    rw [toNat_row_add y nrs (x * 3 + c) _ (by push_cast; ring)]
    constructor
    · intro hin
      rw [if_pos (by omega)] at hdst
      simp only [] at hdst
      obtain ⟨hx0, hxw, hy0, hyh⟩ := hin
      obtain ⟨a, rfl⟩ := Int.eq_ofNat_of_zero_le hx0
      obtain ⟨b, rfl⟩ := Int.eq_ofNat_of_zero_le hy0
      subst hwN hrsN
      obtain ⟨h, rfl⟩ := Int.eq_ofNat_of_zero_le (Int.le_of_lt hh)
      have hlenN : src.length = rs * h := by exact_mod_cast hlen
      have hcomm : rs * h = h * rs := Nat.mul_comm _ _
      have haw : a < w := by omega
      have hbh : b < h := by omega
      have hbrs := mul_add_le_of_lt (c := rs) hbh
      have hso : ((b : Int) * (rs : Int) + (a : Int) * 3).toNat = b * rs + a * 3 := by
        have : ((b : Int) * (rs : Int) + (a : Int) * 3) = ((b * rs + a * 3 : Nat) : Int) := by
          push_cast; rfl
        rw [this, Int.toNat_ofNat]
      have hin : b * rs + a * 3 + c < src.length := by omega
      have hin3 : b * rs + a * 3 + 3 ≤ src.length := by omega
      refine ⟨by positivity, by exact_mod_cast hin3, src[b * rs + a * 3 + c], ?_, ?_⟩
      · rw [hdst, hso, List.getElem?_eq_getElem hin]
      · rw [toNat_row_add b rs (a * 3 + c) _ (by push_cast; ring),
          show b * rs + (a * 3 + c) = b * rs + a * 3 + c by omega,
          List.getElem?_eq_getElem hin]
    · intro hout
      rw [if_neg (by omega)] at hdst
      simp only [] at hdst
      rw [hdst, List.getElem?_replicate, if_pos (by omega)]
  · intro y r hy hr1 hr2
    have hyN : y < nh := by omega
    have hrN : r < nrs := by omega
    have hyrs := mul_add_le_of_lt (c := nrs) hyN
    rw [toNat_row_add y nrs r _ rfl, hP y r hrN, if_neg (by omega),
      List.getElem?_replicate, if_pos (by omega)]

theorem rotateImageFl_inverse_map_witness :
    ∃ (dst : List Byte) (newWidth newHeight : Int),
      rotateImageFl roundDouble sample2x2 2 2 8 cos30 sin30 =
        .ok (dst, newWidth, newHeight, rowSizeOf newWidth) ∧
      (dst.length : Int) = rowSizeOf newWidth * newHeight ∧
      (∀ x y : Nat,
        rotSourceFl roundDouble 2 2 newWidth newHeight cos30 sin30 y x =
        (truncToInt (cround
          (roundDouble (roundDouble (roundDouble
                (cos30 * roundDouble ((x : ℚ) - roundDouble ((newWidth : ℚ) / 2)))
              + roundDouble (sin30 * roundDouble ((y : ℚ) - roundDouble ((newHeight : ℚ) / 2))))
            + roundDouble (((2 : Int) : ℚ) / 2)))),
         truncToInt (cround
          (roundDouble (roundDouble (roundDouble
                (-sin30 * roundDouble ((x : ℚ) - roundDouble ((newWidth : ℚ) / 2)))
              + roundDouble (cos30 * roundDouble ((y : ℚ) - roundDouble ((newHeight : ℚ) / 2))))
            + roundDouble (((2 : Int) : ℚ) / 2)))))) ∧
      (∀ x y c : Nat, (x : Int) < newWidth → (y : Int) < newHeight → c < 3 →
        ∀ ix iy : Int,
          rotSourceFl roundDouble 2 2 newWidth newHeight cos30 sin30 y x = (ix, iy) →
          ((0 ≤ ix ∧ ix < 2 ∧ 0 ≤ iy ∧ iy < 2) →
            0 ≤ iy * 8 + ix * 3 ∧ iy * 8 + ix * 3 + 3 ≤ (sample2x2.length : Int) ∧
            ∃ b, dst[((y : Int) * rowSizeOf newWidth + (x : Int) * 3 + (c : Int)).toNat]?
                = some b ∧
              sample2x2[(iy * 8 + ix * 3 + (c : Int)).toNat]? = some b) ∧
          (¬ (0 ≤ ix ∧ ix < 2 ∧ 0 ≤ iy ∧ iy < 2) →
            dst[((y : Int) * rowSizeOf newWidth + (x : Int) * 3 + (c : Int)).toNat]?
              = some 255)) ∧
      (∀ y r : Nat, (y : Int) < newHeight → newWidth * 3 ≤ (r : Int) →
        (r : Int) < rowSizeOf newWidth →
        dst[((y : Int) * rowSizeOf newWidth + (r : Int)).toNat]? = some 255) :=
  rotateImageFl_inverse_map roundDouble sample2x2 2 2 8 cos30 sin30 isRounding_roundDouble
    (by decide) (by decide) (by decide) (by decide) (by decide!) (by decide!) (by decide!)

end ImageTool
